import Mathlib

/-! # Idea board server (`server.js`)

A shallow embedding of the request handlers of `server.js`: seven JSON
collections kept in one file each, read whole, changed in memory and written
back whole.

Modelling choices, all visible in the definitions below:

* A collection file holds a JSON array written by `JSON.stringify`; the store
  is the content of the seven files (`Json`), in which every number is finite.
* A value in memory (`JVal`) is what `JSON.parse` produces from a file or from
  a request body: numbers are the exact rational value of the parsed double, or
  `Infinity` and `-Infinity` for a literal outside the range of doubles.
  `JSON.stringify` writes these two as `null`.
* JavaScript `undefined` is `none : Option JVal`; it only arises from reading a
  property that is absent.
* Every read and every write of a file may fail. The outcome of the file
  system calls of one request is an input of the handler (`FsOutcome`); a
  request reads and writes each file at most once. A write that fails either
  leaves the file as it was, or, when it fails after the file was opened and
  truncated, leaves it cut; a cut file is not valid JSON and is read as `[]`.
* Handlers are functions from the store and the request body to the response
  and the next store.
-/

namespace IdeaBoard

/-! ## JSON values and the JavaScript operators used by the handlers -/

/-- A JSON value as `JSON.stringify` writes it in a file; its numbers are
finite. -/
inductive Json where
  | null
  | bool (b : Bool)
  | num (q : ℚ)
  | str (s : String)
  | arr (items : List Json)
  | obj (props : List (String × Json))

/-- A value produced by `JSON.parse`. A number is finite (`num`), or
`Infinity` (`inf false`) or `-Infinity` (`inf true`) when its literal is
outside the range of doubles, as `1e400` is. -/
inductive JVal where
  | null
  | bool (b : Bool)
  | num (q : ℚ)
  | inf (negative : Bool)
  | str (s : String)
  | arr (items : List JVal)
  | obj (props : List (String × JVal))

mutual
/-- The value `JSON.parse` produces from the content of a file. -/
def Json.parse : Json → JVal
  | .null => .null
  | .bool b => .bool b
  | .num q => .num q
  | .str s => .str s
  | .arr items => .arr (Json.parseItems items)
  | .obj props => .obj (Json.parseProps props)
/-- The items of a parsed array. -/
def Json.parseItems : List Json → List JVal
  | [] => []
  | v :: rest => v.parse :: Json.parseItems rest
/-- The properties of a parsed object. -/
def Json.parseProps : List (String × Json) → List (String × JVal)
  | [] => []
  | (k, v) :: rest => (k, v.parse) :: Json.parseProps rest
end

mutual
/-- The JSON `JSON.stringify` writes for a value: `Infinity` and `-Infinity`
are written as `null`, at every depth. -/
def JVal.stringify : JVal → Json
  | .null => .null
  | .bool b => .bool b
  | .num q => .num q
  | .inf _ => .null
  | .str s => .str s
  | .arr items => .arr (JVal.stringifyItems items)
  | .obj props => .obj (JVal.stringifyProps props)
/-- The items of a written array. -/
def JVal.stringifyItems : List JVal → List Json
  | [] => []
  | v :: rest => v.stringify :: JVal.stringifyItems rest
/-- The properties of a written object. -/
def JVal.stringifyProps : List (String × JVal) → List (String × Json)
  | [] => []
  | (k, v) :: rest => (k, v.stringify) :: JVal.stringifyProps rest
end

mutual
/-- Whether a value holds no `Infinity` or `-Infinity`, at any depth. -/
def JVal.finite : JVal → Bool
  | .inf _ => false
  | .arr items => JVal.finiteItems items
  | .obj props => JVal.finiteProps props
  | _ => true
/-- Whether the items of an array are finite. -/
def JVal.finiteItems : List JVal → Bool
  | [] => true
  | v :: rest => v.finite && JVal.finiteItems rest
/-- Whether the properties of an object are finite. -/
def JVal.finiteProps : List (String × JVal) → Bool
  | [] => true
  | (_, v) :: rest => v.finite && JVal.finiteProps rest
end

/-- The value read back from a file after `v` was written to it. -/
def JVal.stored (v : JVal) : JVal := v.stringify.parse

/-- Property read `v.name` for the property names used in `server.js`
(`username`, `title`, `ideaTitle`, `index`, ...): the value stored under the
name in an object, `undefined` for anything else. -/
def JVal.field (v : JVal) (name : String) : Option JVal :=
  match v with
  | .obj props => props.lookup name
  | _ => none

/-- Property read `r.name` on a record of a file, once the file is parsed. -/
def Json.field (r : Json) (name : String) : Option JVal := r.parse.field name

/-- Strict equality `a === b` between a property of a stored record and a
property of the request body. Primitive values compare by value; an object or
array is only `===` to itself, and the two operands always come from two
different `JSON.parse` results, so they are never equal. -/
def strictEq : Option JVal → Option JVal → Bool
  | none, none => true
  | some .null, some .null => true
  | some (.bool a), some (.bool b) => a == b
  | some (.num a), some (.num b) => decide (a = b)
  | some (.inf a), some (.inf b) => a == b
  | some (.str a), some (.str b) => a == b
  | _, _ => false

/-- A property value that is not an array or an object (`undefined`
included). -/
def isPrimitive : Option JVal → Bool
  | some (.arr _) => false
  | some (.obj _) => false
  | _ => true

/-- A JavaScript number: the result of `ToNumber`. -/
inductive JSNum where
  | nan
  | negInf
  | posInf
  | fin (q : ℚ)

/-- The comparison `a < b` on numbers (false when either side is `NaN`). -/
def JSNum.lt : JSNum → JSNum → Bool
  | .nan, _ => false
  | _, .nan => false
  | .fin a, .fin b => decide (a < b)
  | .negInf, .negInf => false
  | .negInf, _ => true
  | _, .negInf => false
  | .posInf, _ => false
  | .fin _, .posInf => true

/-- The comparison `a >= b` on numbers (false when either side is `NaN`,
otherwise the negation of `a < b`). -/
def JSNum.ge : JSNum → JSNum → Bool
  | .nan, _ => false
  | _, .nan => false
  | a, b => !(JSNum.lt a b)

/-- The conversion `ToNumber` applied to a property of the request body. The
conversion of a string, an array or an object is a built-in of the runtime
(`StringToNumber`, after `ToPrimitive` for arrays and objects) and is taken as
the parameter `conv`. -/
def toNumber (conv : JVal → JSNum) : Option JVal → JSNum
  | none => .nan
  | some .null => .fin 0
  | some (.bool b) => .fin (if b then 1 else 0)
  | some (.num q) => .fin q
  | some (.inf false) => .posInf
  | some (.inf true) => .negInf
  | some v => conv v

/-- Truncation toward zero of a finite number. -/
def truncate (q : ℚ) : Int :=
  if 0 ≤ q then Int.floor q else Int.ceil q

/-- The start position `Array.prototype.splice` computes from its first
argument, for an array of length `len`: `ToIntegerOrInfinity` (with `NaN`
giving `0`), then counted from the end when negative, then clamped to
`[0, len]`. -/
def actualStart (len : Nat) : JSNum → Nat
  | .nan => 0
  | .negInf => 0
  | .posInf => len
  | .fin q =>
    let relativeStart := truncate q
    if relativeStart < 0 then (max ((len : Int) + relativeStart) 0).toNat
    else min relativeStart.toNat len

/-- The array left by `xs.splice(start, deleteCount)` (no items inserted). -/
def splice {α : Type} (xs : List α) (start : JSNum) (deleteCount : Nat) : List α :=
  let len := xs.length
  let from_ := actualStart len start
  let actualDeleteCount := min deleteCount (len - from_)
  xs.take from_ ++ xs.drop (from_ + actualDeleteCount)

/-- The result of `xs.findIndex(p)`: the first position whose element satisfies
`p`; `none` stands for `-1`. -/
def findIndex {α : Type} (p : α → Bool) : List α → Option Nat
  | [] => none
  | x :: xs => if p x then some 0 else (findIndex p xs).map (· + 1)

/-- An object literal, without the properties whose value is `undefined`:
`JSON.stringify` leaves them out. -/
def objectLiteral (props : List (String × Option JVal)) : JVal :=
  .obj (props.filterMap fun kv => kv.2.map fun v => (kv.1, v))

/-! ## The store -/

/-- The seven collections, the keys of `FILE_PATHS`. -/
inductive Coll where
  | users | ideas | funds | votes | comments | chat_messages | activity_log
deriving DecidableEq

/-- The content of the seven JSON files. -/
structure Store where
  users : List Json
  ideas : List Json
  funds : List Json
  votes : List Json
  comments : List Json
  chat_messages : List Json
  activity_log : List Json

/-- The store after start-up on an empty data directory: every file holds `[]`. -/
def Store.empty : Store := ⟨[], [], [], [], [], [], []⟩

/-- The content of one file. -/
def Store.get (s : Store) : Coll → List Json
  | .users => s.users
  | .ideas => s.ideas
  | .funds => s.funds
  | .votes => s.votes
  | .comments => s.comments
  | .chat_messages => s.chat_messages
  | .activity_log => s.activity_log

/-- The store with one file overwritten. -/
def Store.set (s : Store) (c : Coll) (data : List Json) : Store :=
  match c with
  | .users => { s with users := data }
  | .ideas => { s with ideas := data }
  | .funds => { s with funds := data }
  | .votes => { s with votes := data }
  | .comments => { s with comments := data }
  | .chat_messages => { s with chat_messages := data }
  | .activity_log => { s with activity_log := data }

/-- The outcome of the file system calls of one request: whether the read and
the write of each file succeed, and whether a write that fails does so after
the file was opened and truncated, leaving it cut. -/
structure FsOutcome where
  readOk : Coll → Bool
  writeOk : Coll → Bool
  cutOnFail : Coll → Bool

/-- The outcome in which every read and every write succeeds. -/
def FsOutcome.allOk : FsOutcome := ⟨fun _ => true, fun _ => true, fun _ => false⟩

/-- The content of the file behind a read: nothing when reading fails. -/
def loaded (fs : FsOutcome) (s : Store) (c : Coll) : List Json :=
  if fs.readOk c then s.get c else []

/-- The content of file `c` after a request tried to write `data` to it:
`data` when the write succeeds, nothing when it fails and leaves the file cut,
the previous content when it fails before the file is touched. -/
def afterWrite (fs : FsOutcome) (s : Store) (c : Coll) (data : List Json) : List Json :=
  if fs.writeOk c then data else if fs.cutOnFail c then [] else s.get c

/-- `readJsonFile`: the parsed file, or `[]` when reading fails. -/
def readJsonFile (fs : FsOutcome) (s : Store) (c : Coll) : List JVal :=
  if fs.readOk c then (s.get c).map Json.parse else []

/-- `writeJsonFile`: overwrites the file with `JSON.stringify(data)` and
returns `true`, or returns `false` when writing fails. A write that fails
leaves the file as it was, or leaves it cut; a cut file is not valid JSON, so
that every later read of it gives `[]`, and the store holds `[]` for it. -/
def writeJsonFile (fs : FsOutcome) (s : Store) (c : Coll) (data : List JVal) : Bool × Store :=
  if fs.writeOk c then (true, s.set c (data.map JVal.stringify))
  else (false, if fs.cutOnFail c then s.set c [] else s)

/-- The body of the response of a mutating endpoint:
`{ success, message? }`. -/
structure Response where
  success : Bool
  message : Option String
deriving DecidableEq

/-- The response `{ success: true }`. -/
def Response.ok : Response := ⟨true, none⟩

/-- The response `{ success: false, message }`. -/
def Response.fail (message : String) : Response := ⟨false, some message⟩

/-! ## The handlers -/

/-- Handler of `GET /users`. -/
def getUsers (fs : FsOutcome) (s : Store) : List JVal := readJsonFile fs s .users

/-- Handler of `GET /ideas`. -/
def getIdeas (fs : FsOutcome) (s : Store) : List JVal := readJsonFile fs s .ideas

/-- Handler of `GET /funds`. -/
def getFunds (fs : FsOutcome) (s : Store) : List JVal := readJsonFile fs s .funds

/-- Handler of `GET /votes`. -/
def getVotes (fs : FsOutcome) (s : Store) : List JVal := readJsonFile fs s .votes

/-- Handler of `GET /comments`. -/
def getComments (fs : FsOutcome) (s : Store) : List JVal := readJsonFile fs s .comments

/-- Handler of `GET /chat_messages`. -/
def getChatMessages (fs : FsOutcome) (s : Store) : List JVal :=
  readJsonFile fs s .chat_messages

/-- Handler of `GET /activity_log`. -/
def getActivityLog (fs : FsOutcome) (s : Store) : List JVal :=
  readJsonFile fs s .activity_log

/-- Handler of `POST /users`. -/
def postUsers (fs : FsOutcome) (s : Store) (body : JVal) : Response × Store :=
  let users := readJsonFile fs s .users
  let user := body
  if users.any (fun u => strictEq (u.field "username") (user.field "username")) then
    (Response.fail "Username already exists", s)
  else if users.length ≥ 5000 then
    (Response.fail "User limit reached", s)
  else
    let users := users ++ [user]
    match writeJsonFile fs s .users users with
    | (true, s') => (Response.ok, s')
    | (false, s') => (Response.fail "Failed to save user", s')

/-- Handler of `POST /ideas`. -/
def postIdeas (fs : FsOutcome) (s : Store) (body : JVal) : Response × Store :=
  let ideas := readJsonFile fs s .ideas
  let idea := body
  if ideas.any (fun i => strictEq (i.field "title") (idea.field "title")) then
    (Response.fail "Idea title already exists", s)
  else if ideas.length ≥ 5000 then
    (Response.fail "Idea limit reached", s)
  else
    let ideas := ideas ++ [idea]
    match writeJsonFile fs s .ideas ideas with
    | (true, s') => (Response.ok, s')
    | (false, s') => (Response.fail "Failed to save idea", s')

/-- Handler of `POST /ideas/edit`. -/
def postIdeasEdit (fs : FsOutcome) (s : Store) (body : JVal) : Response × Store :=
  let ideas := readJsonFile fs s .ideas
  let oldTitle := body.field "oldTitle"
  let newTitle := body.field "newTitle"
  let description := body.field "description"
  let creator := body.field "creator"
  let category := body.field "category"
  let fundingGoal := body.field "fundingGoal"
  let status := body.field "status"
  match findIndex (fun i => strictEq (i.field "title") oldTitle) ideas with
  | none => (Response.fail "Idea not found", s)
  | some index =>
    let ideas := ideas.set index (objectLiteral
      [("title", newTitle), ("description", description), ("creator", creator),
       ("category", category), ("fundingGoal", fundingGoal), ("status", status)])
    match writeJsonFile fs s .ideas ideas with
    | (true, s') => (Response.ok, s')
    | (false, s') => (Response.fail "Failed to update idea", s')

/-- Handler of `POST /ideas/delete`. -/
def postIdeasDelete (fs : FsOutcome) (s : Store) (body : JVal) : Response × Store :=
  let title := body.field "title"
  let ideas := readJsonFile fs s .ideas
  match findIndex (fun i => strictEq (i.field "title") title) ideas with
  | none => (Response.fail "Idea not found", s)
  | some index =>
    let ideas := splice ideas (.fin index) 1
    let funds := (readJsonFile fs s .funds).filter
      (fun f => !strictEq (f.field "ideaTitle") title)
    let votes := (readJsonFile fs s .votes).filter
      (fun v => !strictEq (v.field "ideaTitle") title)
    let comments := (readJsonFile fs s .comments).filter
      (fun c => !strictEq (c.field "ideaTitle") title)
    let chatMessages := (readJsonFile fs s .chat_messages).filter
      (fun m => !strictEq (m.field "ideaTitle") title)
    let w1 := writeJsonFile fs s .ideas ideas
    let w2 := writeJsonFile fs w1.2 .funds funds
    let w3 := writeJsonFile fs w2.2 .votes votes
    let w4 := writeJsonFile fs w3.2 .comments comments
    let w5 := writeJsonFile fs w4.2 .chat_messages chatMessages
    let success := [w1.1, w2.1, w3.1, w4.1, w5.1].all (fun result => result)
    if success then (Response.ok, w5.2)
    else (Response.fail "Failed to delete idea", w5.2)

/-- Handler of `POST /fund`. -/
def postFund (fs : FsOutcome) (s : Store) (body : JVal) : Response × Store :=
  let funds := readJsonFile fs s .funds
  let fund := body
  let funds := funds ++ [fund]
  match writeJsonFile fs s .funds funds with
  | (true, s') => (Response.ok, s')
  | (false, s') => (Response.fail "Failed to save fund", s')

/-- Handler of `POST /votes`. -/
def postVotes (fs : FsOutcome) (s : Store) (body : JVal) : Response × Store :=
  let votes := readJsonFile fs s .votes
  let vote := body
  if votes.any (fun v => strictEq (v.field "username") (vote.field "username") &&
      strictEq (v.field "ideaTitle") (vote.field "ideaTitle")) then
    (Response.fail "You have already voted", s)
  else if votes.length ≥ 5000 then
    (Response.fail "Vote limit reached", s)
  else
    let votes := votes ++ [vote]
    match writeJsonFile fs s .votes votes with
    | (true, s') => (Response.ok, s')
    | (false, s') => (Response.fail "Failed to save vote", s')

/-- Handler of `POST /comments`. -/
def postComments (fs : FsOutcome) (s : Store) (body : JVal) : Response × Store :=
  let comments := readJsonFile fs s .comments
  let comment := body
  if comments.length ≥ 5000 then
    (Response.fail "Comment limit reached", s)
  else
    let comments := comments ++ [comment]
    match writeJsonFile fs s .comments comments with
    | (true, s') => (Response.ok, s')
    | (false, s') => (Response.fail "Failed to save comment", s')

/-- Handler of `POST /comments/delete`. -/
def postCommentsDelete (conv : JVal → JSNum) (fs : FsOutcome) (s : Store) (body : JVal) :
    Response × Store :=
  let comments := readJsonFile fs s .comments
  let index := toNumber conv (body.field "index")
  if JSNum.lt index (.fin 0) || JSNum.ge index (.fin comments.length) then
    (Response.fail "Comment not found", s)
  else
    let comments := splice comments index 1
    match writeJsonFile fs s .comments comments with
    | (true, s') => (Response.ok, s')
    | (false, s') => (Response.fail "Failed to delete comment", s')

/-- Handler of `POST /chat_messages`. -/
def postChatMessages (fs : FsOutcome) (s : Store) (body : JVal) : Response × Store :=
  let chatMessages := readJsonFile fs s .chat_messages
  let message := body
  if chatMessages.length ≥ 5000 then
    (Response.fail "Chat message limit reached", s)
  else
    let chatMessages := chatMessages ++ [message]
    match writeJsonFile fs s .chat_messages chatMessages with
    | (true, s') => (Response.ok, s')
    | (false, s') => (Response.fail "Failed to save chat message", s')

/-- Handler of `POST /activity_log`. -/
def postActivityLog (fs : FsOutcome) (s : Store) (body : JVal) : Response × Store :=
  let activityLog := readJsonFile fs s .activity_log
  let activity := body
  let activityLog := activityLog ++ [activity]
  match writeJsonFile fs s .activity_log activityLog with
  | (true, s') => (Response.ok, s')
  | (false, s') => (Response.fail "Failed to save activity log", s')

/-- Handler of `GET /analytics`: the object sent, as the list of its keys with
their values in the order of the object literal, and the store, which the
handler only reads. -/
def getAnalytics (fs : FsOutcome) (s : Store) : List (String × List JVal) × Store :=
  let data :=
    [("users", readJsonFile fs s .users),
     ("ideas", readJsonFile fs s .ideas),
     ("funds", readJsonFile fs s .funds),
     ("votes", readJsonFile fs s .votes),
     ("comments", readJsonFile fs s .comments),
     ("chatMessages", readJsonFile fs s .chat_messages),
     ("activityLog", readJsonFile fs s .activity_log)]
  (data, s)

/-! ## The server as a transition system -/

/-- A request to one of the mutating endpoints, with its parsed body. -/
inductive Request where
  | users (body : JVal)
  | ideas (body : JVal)
  | ideasEdit (body : JVal)
  | ideasDelete (body : JVal)
  | fund (body : JVal)
  | votes (body : JVal)
  | comments (body : JVal)
  | commentsDelete (body : JVal)
  | chatMessages (body : JVal)
  | activityLog (body : JVal)

/-- The routing of a `POST` request to its handler. -/
def handle (conv : JVal → JSNum) (fs : FsOutcome) (s : Store) : Request → Response × Store
  | .users body => postUsers fs s body
  | .ideas body => postIdeas fs s body
  | .ideasEdit body => postIdeasEdit fs s body
  | .ideasDelete body => postIdeasDelete fs s body
  | .fund body => postFund fs s body
  | .votes body => postVotes fs s body
  | .comments body => postComments fs s body
  | .commentsDelete body => postCommentsDelete conv fs s body
  | .chatMessages body => postChatMessages fs s body
  | .activityLog body => postActivityLog fs s body

/-- The stores reachable from the empty store by a sequence of requests, under
any outcome of the file system calls. -/
inductive Reachable (conv : JVal → JSNum) : Store → Prop where
  | init : Reachable conv Store.empty
  | step {s : Store} (fs : FsOutcome) (req : Request) :
      Reachable conv s → Reachable conv (handle conv fs s req).2

/-- The append operation of each collection: the handler of its `POST`
endpoint. -/
def append : Coll → FsOutcome → Store → JVal → Response × Store
  | .users => postUsers
  | .ideas => postIdeas
  | .funds => postFund
  | .votes => postVotes
  | .comments => postComments
  | .chat_messages => postChatMessages
  | .activity_log => postActivityLog

/-- The list operation of each collection: the handler of its `GET`
endpoint. -/
def list : Coll → FsOutcome → Store → List JVal
  | .users => getUsers
  | .ideas => getIdeas
  | .funds => getFunds
  | .votes => getVotes
  | .comments => getComments
  | .chat_messages => getChatMessages
  | .activity_log => getActivityLog

/-- Runs a sequence of appends to one collection, each with its own file
system outcome; `none` as soon as one of them does not answer
`success: true`. -/
def appendAll (c : Coll) (s : Store) : List (FsOutcome × JVal) → Option Store
  | [] => some s
  | (fs, r) :: rest =>
    if (append c fs s r).1.success then appendAll c (append c fs s r).2 rest else none

/-! ## Vocabulary of the statements -/

/-- A stored record and a new record carry the same `username` (in the sense
of `===`). -/
def sameUsername (a : Json) (b : JVal) : Bool :=
  strictEq (a.field "username") (b.field "username")

/-- Two stored records carry the same `title` (in the sense of `===`). -/
def sameTitle (a b : Json) : Bool :=
  strictEq (a.field "title") (b.field "title")

/-- A stored record and a new record carry the same `title`. -/
def sameTitleAs (a : Json) (b : JVal) : Bool :=
  strictEq (a.field "title") (b.field "title")

/-- A stored record and a new record carry the same `username` and the same
`ideaTitle`. -/
def sameVote (a : Json) (b : JVal) : Bool :=
  strictEq (a.field "username") (b.field "username") &&
    strictEq (a.field "ideaTitle") (b.field "ideaTitle")

/-- The stored record's `ideaTitle` is `title` (in the sense of `===`). -/
def refersTo (title : Option JVal) (r : Json) : Bool :=
  strictEq (r.field "ideaTitle") title

/-- The stored record's `title` is `title` (in the sense of `===`). -/
def hasTitle (title : Option JVal) (r : Json) : Bool :=
  strictEq (r.field "title") title

/-- No two records of the list are related by `same`. -/
def Unique (same : Json → Json → Bool) (xs : List Json) : Prop :=
  xs.Pairwise fun a b => same a b = false

/-- The collections with a size ceiling of 5000. -/
def bounded : List Coll := [.users, .ideas, .votes, .comments, .chat_messages]

/-- The uniqueness key of each collection, as a relation between a stored
record and a new one (always `false` for a collection without key). -/
def collides : Coll → Json → JVal → Bool
  | .users => sameUsername
  | .ideas => sameTitleAs
  | .votes => sameVote
  | _ => fun _ _ => false

/-- The message of a full collection, per collection with a ceiling. -/
def limitMessage : Coll → String
  | .users => "User limit reached"
  | .ideas => "Idea limit reached"
  | .votes => "Vote limit reached"
  | .comments => "Comment limit reached"
  | .chat_messages => "Chat message limit reached"
  | _ => ""

/-- The record `POST /ideas/edit` stores for a request body. -/
def editedIdea (body : JVal) : JVal :=
  objectLiteral
    [("title", body.field "newTitle"), ("description", body.field "description"),
     ("creator", body.field "creator"), ("category", body.field "category"),
     ("fundingGoal", body.field "fundingGoal"), ("status", body.field "status")]

/-! ## Concrete records and request bodies -/

/-- The idea `{ "title": "A" }`. -/
def ideaA : Json := .obj [("title", .str "A")]

/-- The idea `{ "title": "B" }`. -/
def ideaB : Json := .obj [("title", .str "B")]

/-- The body `{ "oldTitle": "A", "newTitle": "B" }` of a `POST /ideas/edit`. -/
def renameAtoB : JVal := .obj [("oldTitle", .str "A"), ("newTitle", .str "B")]

/-- The store after `POST /ideas` with `ideaA`, `POST /ideas` with `ideaB` and
`POST /ideas/edit` with `renameAtoB`, every file system call succeeding. -/
def storeAfterRename (conv : JVal → JSNum) : Store :=
  (handle conv .allOk
    (handle conv .allOk
      (handle conv .allOk Store.empty (.ideas ideaA.parse)).2 (.ideas ideaB.parse)).2
    (.ideasEdit renameAtoB)).2

/-- A conversion answering `NaN` for every string, array and object; it stands
for the runtime conversion where a statement is evaluated on values that do not
use it. -/
def convNaN : JVal → JSNum := fun _ => .nan

/-- The user `{ "username": "alice" }`. -/
def userAlice : Json := .obj [("username", .str "alice")]

/-- The vote `{ "username": "alice", "ideaTitle": "A" }`. -/
def voteAliceA : Json := .obj [("username", .str "alice"), ("ideaTitle", .str "A")]

/-- A pledge on idea `"A"`. -/
def fundA : Json := .obj [("ideaTitle", .str "A"), ("amount", .num 10)]

/-- A pledge on idea `"B"`. -/
def fundB : Json := .obj [("ideaTitle", .str "B"), ("amount", .num 20)]

/-- A comment on idea `"A"`. -/
def commentA : Json := .obj [("ideaTitle", .str "A"), ("text", .str "nice")]

/-- A comment on idea `"B"`. -/
def commentB : Json := .obj [("ideaTitle", .str "B"), ("text", .str "hm")]

/-- A chat message on idea `"A"`. -/
def chatA : Json := .obj [("ideaTitle", .str "A"), ("text", .str "hi")]

/-- The body `{ "title": "A" }` of a `POST /ideas/delete`. -/
def deleteA : JVal := .obj [("title", .str "A")]

/-- A store with one user, the ideas `"A"` and `"B"` and records that refer to
them. -/
def sampleStore : Store :=
  { users := [userAlice]
    ideas := [ideaA, ideaB]
    funds := [fundA, fundB, fundA]
    votes := [voteAliceA]
    comments := [commentB, commentA]
    chat_messages := [chatA]
    activity_log := [] }

/-- The body `{ "title": "B" }` of a `POST /ideas/delete`. -/
def deleteB : JVal := .obj [("title", .str "B")]

/-- A store whose `comments` hold 5000 copies of `commentA`. -/
def fullComments : Store :=
  { Store.empty with comments := List.replicate 5000 commentA }

/-- The body `{ "index": 1 }` of a `POST /comments/delete`. -/
def deleteAt1 : JVal := .obj [("index", .num 1)]

/-- The body `{}` of a `POST /comments/delete` without `index`. -/
def deleteNoIndex : JVal := .obj []

/-- The body `{ "index": 1.5 }` of a `POST /comments/delete`. -/
def deleteAtOneAndHalf : JVal := .obj [("index", .num (3 / 2))]

/-- An idea `"A"` carrying a field outside the six fields kept by an edit. -/
def ideaAWithExtra : Json :=
  .obj [("title", .str "A"), ("description", .str "old"), ("likes", .num 3)]

/-- The body of a `POST /ideas/edit` renaming `"A"` to `"C"`, with the five
other fields. -/
def editAtoC : JVal :=
  .obj [("oldTitle", .str "A"), ("newTitle", .str "C"), ("description", .str "new"),
    ("creator", .str "alice"), ("category", .str "tools"), ("fundingGoal", .num 100),
    ("status", .str "open")]

/-- The body `{ "oldTitle": "C", "newTitle": "D" }` of a `POST /ideas/edit`. -/
def renameCtoD : JVal := .obj [("oldTitle", .str "C"), ("newTitle", .str "D")]

/-- A store whose ideas are `ideaB` followed by `ideaAWithExtra`. -/
def storeWithExtra : Store :=
  { Store.empty with ideas := [ideaB, ideaAWithExtra] }

/-- The files written by `POST /ideas/delete`, in the order of the writes. -/
def written : List Coll := [.ideas, .funds, .votes, .comments, .chat_messages]

/-- The outcome in which every read succeeds and every write succeeds except
the write of `funds`, which leaves the file as it was. -/
def fundsWriteFails : FsOutcome :=
  ⟨fun _ => true, fun c => decide (c ≠ .funds), fun _ => false⟩

/-- A store whose `funds` and `activity_log` hold 6000 copies of `fundA`. -/
def largeStore : Store :=
  { Store.empty with
    funds := List.replicate 6000 fundA
    activity_log := List.replicate 6000 fundA }

/-- The outcome in which every read succeeds and every write fails, leaving
the file as it was. -/
def allWritesFail : FsOutcome := ⟨fun _ => true, fun _ => false, fun _ => false⟩

/-- The user `{ "username": "bob" }`. -/
def userBob : Json := .obj [("username", .str "bob")]

/-- The outcome in which every read succeeds and every write succeeds except
the write of `funds`, which fails after the file was opened and leaves it
cut. -/
def fundsWriteCut : FsOutcome :=
  ⟨fun _ => true, fun c => decide (c ≠ .funds), fun c => decide (c = .funds)⟩

/-- The pledge `{ "ideaTitle": "A", "amount": 1e400 }` as parsed from a request
body: the amount is `Infinity`. -/
def fundInf : JVal := .obj [("ideaTitle", .str "A"), ("amount", .inf false)]

/-- The body of a `POST /ideas/edit` of idea `"A"` whose `fundingGoal` is the
literal `1e400`, parsed as `Infinity`. -/
def editAtoInf : JVal :=
  .obj [("oldTitle", .str "A"), ("newTitle", .str "A"), ("fundingGoal", .inf false)]

/-! ## Basic facts -/

@[simp] theorem Store.get_set_self (s : Store) (c : Coll) (data : List Json) :
    (s.set c data).get c = data := by
  cases c <;> rfl

theorem Store.get_set_of_ne (s : Store) {c d : Coll} (data : List Json) (h : d ≠ c) :
    (s.set c data).get d = s.get d := by
  cases c <;> cases d <;> first | rfl | exact absurd rfl h

theorem Store.set_get_self (s : Store) (c : Coll) : s.set c (s.get c) = s := by
  cases c <;> rfl

/-- On the values compared by the handlers, `===` is equality of two values
that are not arrays or objects. -/
theorem strictEq_eq_true_iff (a b : Option JVal) :
    strictEq a b = true ↔ a = b ∧ isPrimitive a = true := by
  rcases a with _ | a <;> rcases b with _ | b
  · simp [strictEq, isPrimitive]
  · cases b <;> simp [strictEq, isPrimitive]
  · cases a <;> simp [strictEq, isPrimitive]
  · cases a <;> cases b <;> simp [strictEq, isPrimitive]

mutual
/-- What `JSON.stringify` writes for a parsed file is the file. -/
theorem Json.stringify_parse : ∀ v : Json, v.parse.stringify = v
  | .null => rfl
  | .bool _ => rfl
  | .num _ => rfl
  | .str _ => rfl
  | .arr items => by
    simp [Json.parse, JVal.stringify, Json.stringifyItems_parseItems items]
  | .obj props => by
    simp [Json.parse, JVal.stringify, Json.stringifyProps_parseProps props]
theorem Json.stringifyItems_parseItems :
    ∀ l : List Json, JVal.stringifyItems (Json.parseItems l) = l
  | [] => rfl
  | v :: rest => by
    simp [Json.parseItems, JVal.stringifyItems, Json.stringify_parse v,
      Json.stringifyItems_parseItems rest]
theorem Json.stringifyProps_parseProps :
    ∀ l : List (String × Json), JVal.stringifyProps (Json.parseProps l) = l
  | [] => rfl
  | (k, v) :: rest => by
    simp [Json.parseProps, JVal.stringifyProps, Json.stringify_parse v,
      Json.stringifyProps_parseProps rest]
end

mutual
/-- A value without `Infinity` is read back as it was written. -/
theorem JVal.stored_of_finite : ∀ v : JVal, v.finite = true → v.stringify.parse = v
  | .null, _ => rfl
  | .bool _, _ => rfl
  | .num _, _ => rfl
  | .inf _, h => by simp [JVal.finite] at h
  | .str _, _ => rfl
  | .arr items, h => by
    simp only [JVal.finite] at h
    simp [JVal.stringify, Json.parse, JVal.parseItems_stringifyItems items h]
  | .obj props, h => by
    simp only [JVal.finite] at h
    simp [JVal.stringify, Json.parse, JVal.parseProps_stringifyProps props h]
theorem JVal.parseItems_stringifyItems :
    ∀ l : List JVal, JVal.finiteItems l = true → Json.parseItems (JVal.stringifyItems l) = l
  | [], _ => rfl
  | v :: rest, h => by
    simp only [JVal.finiteItems, Bool.and_eq_true] at h
    simp [JVal.stringifyItems, Json.parseItems, JVal.stored_of_finite v h.1,
      JVal.parseItems_stringifyItems rest h.2]
theorem JVal.parseProps_stringifyProps :
    ∀ l : List (String × JVal), JVal.finiteProps l = true →
      Json.parseProps (JVal.stringifyProps l) = l
  | [], _ => rfl
  | (k, v) :: rest, h => by
    simp only [JVal.finiteProps, Bool.and_eq_true] at h
    simp [JVal.stringifyProps, Json.parseProps, JVal.stored_of_finite v h.1,
      JVal.parseProps_stringifyProps rest h.2]
end

theorem map_stringify_map_parse (xs : List Json) :
    (xs.map Json.parse).map JVal.stringify = xs := by
  induction xs with
  | nil => rfl
  | cons x rest ih => simp [Json.stringify_parse x, ih]

theorem map_stringify_comp_parse (xs : List Json) :
    xs.map (JVal.stringify ∘ Json.parse) = xs := by
  rw [← List.map_map, map_stringify_map_parse]

theorem loaded_of_readOk {fs : FsOutcome} {c : Coll} (s : Store)
    (h : fs.readOk c = true) : loaded fs s c = s.get c := by
  simp [loaded, h]

theorem loaded_length_le (fs : FsOutcome) (s : Store) (c : Coll) :
    (loaded fs s c).length ≤ (s.get c).length := by
  unfold loaded
  split <;> simp

theorem mem_of_mem_loaded {fs : FsOutcome} {s : Store} {c : Coll} {x : Json}
    (h : x ∈ loaded fs s c) : x ∈ s.get c := by
  unfold loaded at h
  split at h
  · exact h
  · simp at h

theorem readJsonFile_eq (fs : FsOutcome) (s : Store) (c : Coll) :
    readJsonFile fs s c = (loaded fs s c).map Json.parse := by
  unfold readJsonFile loaded
  split <;> rfl

theorem readJsonFile_of_readOk {fs : FsOutcome} {c : Coll} (s : Store)
    (h : fs.readOk c = true) : readJsonFile fs s c = (s.get c).map Json.parse := by
  simp [readJsonFile, h]

theorem findIndex_eq_none {α : Type} {p : α → Bool} {xs : List α} :
    findIndex p xs = none ↔ ∀ x ∈ xs, p x = false := by
  induction xs with
  | nil => simp [findIndex]
  | cons x xs ih =>
    by_cases hx : p x = true
    · simp [findIndex, hx]
    · simp [findIndex, hx, ih]

theorem findIndex_eq_some {α : Type} {p : α → Bool} {xs : List α} {k : Nat}
    (h : findIndex p xs = some k) :
    ∃ x, xs[k]? = some x ∧ p x = true ∧ ∀ j < k, ∀ y, xs[j]? = some y → p y = false := by
  induction xs generalizing k with
  | nil => simp [findIndex] at h
  | cons x xs ih =>
    by_cases hx : p x = true
    · simp [findIndex, hx] at h
      subst h
      exact ⟨x, by simp, hx, by simp⟩
    · simp [findIndex, hx] at h
      obtain ⟨m, hm, rfl⟩ := h
      obtain ⟨y, hy, hpy, hfirst⟩ := ih hm
      refine ⟨y, by simpa using hy, hpy, ?_⟩
      intro j hj z hz
      cases j with
      | zero =>
        simp at hz
        subst hz
        simpa using hx
      | succ j =>
        simp at hz
        exact hfirst j (by omega) z hz

theorem findIndex_lt_length {α : Type} {p : α → Bool} {xs : List α} {k : Nat}
    (h : findIndex p xs = some k) : k < xs.length := by
  obtain ⟨x, hx, _⟩ := findIndex_eq_some h
  exact (List.getElem?_eq_some.mp hx).1

theorem findIndex_map {α β : Type} (f : α → β) (p : β → Bool) (xs : List α) :
    findIndex p (xs.map f) = findIndex (fun x => p (f x)) xs := by
  induction xs with
  | nil => rfl
  | cons x xs ih => simp [findIndex, ih]

theorem truncate_natCast (n : Nat) : truncate (n : ℚ) = n := by
  simp [truncate]

theorem actualStart_natCast {len n : Nat} (h : n ≤ len) :
    actualStart len (.fin (n : ℚ)) = n := by
  simp [actualStart, truncate_natCast, h]

theorem splice_natCast_one {α : Type} (xs : List α) {n : Nat} (h : n < xs.length) :
    splice xs (.fin (n : ℚ)) 1 = xs.eraseIdx n := by
  have h1 : min 1 (xs.length - n) = 1 := by omega
  simp [splice, actualStart_natCast (Nat.le_of_lt h), h1, List.eraseIdx_eq_take_drop_succ]

theorem splice_length_le {α : Type} (xs : List α) (start : JSNum) (d : Nat) :
    (splice xs start d).length ≤ xs.length := by
  simp only [splice, List.length_append, List.length_take, List.length_drop]
  omega

theorem splice_map {α β : Type} (f : α → β) (xs : List α) (start : JSNum) (d : Nat) :
    splice (xs.map f) start d = (splice xs start d).map f := by
  simp [splice, List.map_take, List.map_drop]

/-! ## What each handler does to the store -/

theorem append_cases (c : Coll) (fs : FsOutcome) (s : Store) (r : JVal) :
    ((append c fs s r).1.success = false ∧
      ((append c fs s r).2 = s ∨
        (fs.writeOk c = false ∧ fs.cutOnFail c = true ∧ (append c fs s r).2 = s.set c []))) ∨
    (append c fs s r = (Response.ok, s.set c (loaded fs s c ++ [r.stringify])) ∧
      (∀ x ∈ loaded fs s c, collides c x r = false) ∧
      (c ∈ bounded → (loaded fs s c).length < 5000) ∧
      fs.writeOk c = true) := by
  cases hw : fs.writeOk c <;> cases hcut : fs.cutOnFail c <;> cases c <;>
    simp only [append, postUsers, postIdeas, postFund, postVotes, postComments,
      postChatMessages, postActivityLog, writeJsonFile, hw, hcut, readJsonFile_eq] <;>
    (repeat' split) <;>
    simp_all [collides, sameUsername, sameTitleAs, sameVote, bounded, Response.fail,
      Response.ok, Json.field, map_stringify_map_parse, map_stringify_comp_parse]

theorem map_stringify_set (xs : List Json) (k : Nat) (v : JVal) :
    ((xs.map Json.parse).set k v).map JVal.stringify = xs.set k v.stringify := by
  induction xs generalizing k with
  | nil => rfl
  | cons x rest ih =>
    cases k with
    | zero => simp [Json.stringify_parse x, map_stringify_comp_parse]
    | succ k =>
      have := ih k
      simp only [List.map_cons, List.set_cons_succ, Json.stringify_parse x, this]

theorem map_stringify_filter (xs : List Json) (p : JVal → Bool) :
    ((xs.map Json.parse).filter p).map JVal.stringify = xs.filter (fun x => p x.parse) := by
  induction xs with
  | nil => rfl
  | cons x rest ih =>
    by_cases hp : p x.parse = true
    · simp [List.filter_cons, hp, Json.stringify_parse x, ← ih]
    · simp [List.filter_cons, hp, ← ih]

theorem map_stringify_splice (xs : List Json) (start : JSNum) (d : Nat) :
    (splice (xs.map Json.parse) start d).map JVal.stringify = splice xs start d := by
  rw [splice_map, map_stringify_map_parse]

theorem writeJsonFile_eq (fs : FsOutcome) (s : Store) (c : Coll) (data : List JVal) :
    writeJsonFile fs s c data =
      (fs.writeOk c, s.set c (afterWrite fs s c (data.map JVal.stringify))) := by
  cases hw : fs.writeOk c <;> cases hcut : fs.cutOnFail c <;>
    simp [writeJsonFile, afterWrite, hw, hcut, Store.set_get_self]

theorem findIndex_readJsonFile (fs : FsOutcome) (s : Store) (title : Option JVal) :
    findIndex (fun i => strictEq (i.field "title") title) (readJsonFile fs s .ideas) =
      findIndex (hasTitle title) (loaded fs s .ideas) := by
  rw [readJsonFile_eq, findIndex_map]
  rfl

theorem postIdeasEdit_not_found {fs : FsOutcome} {s : Store} {body : JVal}
    (h : findIndex (hasTitle (body.field "oldTitle")) (loaded fs s .ideas) = none) :
    postIdeasEdit fs s body = (Response.fail "Idea not found", s) := by
  rw [← findIndex_readJsonFile] at h
  simp [postIdeasEdit, h]

theorem postIdeasEdit_found {fs : FsOutcome} {s : Store} {body : JVal} {k : Nat}
    (h : findIndex (hasTitle (body.field "oldTitle")) (loaded fs s .ideas) = some k) :
    postIdeasEdit fs s body =
      if fs.writeOk .ideas then
        (Response.ok, s.set .ideas ((loaded fs s .ideas).set k (editedIdea body).stringify))
      else (Response.fail "Failed to update idea",
        if fs.cutOnFail .ideas then s.set .ideas [] else s) := by
  rw [← findIndex_readJsonFile, readJsonFile_eq] at h
  simp only [postIdeasEdit, readJsonFile_eq, h, writeJsonFile_eq]
  cases hw : fs.writeOk .ideas <;> cases hcut : fs.cutOnFail .ideas <;>
    simp [afterWrite, hw, hcut, editedIdea, map_stringify_set, map_stringify_comp_parse,
      Response.ok, Response.fail, Store.set_get_self]

theorem postIdeasDelete_not_found {fs : FsOutcome} {s : Store} {body : JVal}
    (h : findIndex (hasTitle (body.field "title")) (loaded fs s .ideas) = none) :
    postIdeasDelete fs s body = (Response.fail "Idea not found", s) := by
  rw [← findIndex_readJsonFile] at h
  simp [postIdeasDelete, h]

/-- The answer and the store of `POST /ideas/delete` when the idea is found at
position `k`, for every outcome of the five writes. -/
theorem postIdeasDelete_found {fs : FsOutcome} {s : Store} {body : JVal} {k : Nat}
    (h : findIndex (hasTitle (body.field "title")) (loaded fs s .ideas) = some k) :
    postIdeasDelete fs s body =
      (if fs.writeOk .ideas && fs.writeOk .funds && fs.writeOk .votes && fs.writeOk .comments
          && fs.writeOk .chat_messages then Response.ok
        else Response.fail "Failed to delete idea",
       { users := s.users
         ideas := afterWrite fs s .ideas (splice (loaded fs s .ideas) (.fin k) 1)
         funds := afterWrite fs s .funds
           ((loaded fs s .funds).filter (fun f => !refersTo (body.field "title") f))
         votes := afterWrite fs s .votes
           ((loaded fs s .votes).filter (fun f => !refersTo (body.field "title") f))
         comments := afterWrite fs s .comments
           ((loaded fs s .comments).filter (fun f => !refersTo (body.field "title") f))
         chat_messages := afterWrite fs s .chat_messages
           ((loaded fs s .chat_messages).filter (fun f => !refersTo (body.field "title") f))
         activity_log := s.activity_log }) := by
  rw [← findIndex_readJsonFile, readJsonFile_eq] at h
  simp only [postIdeasDelete, readJsonFile_eq, h, writeJsonFile_eq, map_stringify_filter,
    map_stringify_splice]
  refine Prod.ext ?_ ?_
  · cases h1 : fs.writeOk .ideas <;> cases h2 : fs.writeOk .funds <;>
      cases h3 : fs.writeOk .votes <;> cases h4 : fs.writeOk .comments <;>
      cases h5 : fs.writeOk .chat_messages <;> simp
  · simp only [Store.set, Store.get, afterWrite, refersTo, Json.field]
    split <;> rfl

theorem postCommentsDelete_cases (conv : JVal → JSNum) (fs : FsOutcome) (s : Store)
    (body : JVal) :
    ((postCommentsDelete conv fs s body).1.success = false ∧
      ((postCommentsDelete conv fs s body).2 = s ∨
        (fs.writeOk .comments = false ∧ fs.cutOnFail .comments = true ∧
          (postCommentsDelete conv fs s body).2 = s.set .comments []))) ∨
      postCommentsDelete conv fs s body =
        (Response.ok, s.set .comments
          (splice (loaded fs s .comments) (toNumber conv (body.field "index")) 1)) := by
  cases hw : fs.writeOk .comments <;> cases hcut : fs.cutOnFail .comments <;>
    simp only [postCommentsDelete, writeJsonFile, hw, hcut, readJsonFile_eq] <;> split <;>
    simp [Response.fail, map_stringify_splice]

theorem afterWrite_length_le (fs : FsOutcome) (s : Store) (c : Coll) (data : List Json)
    (h : data.length ≤ (s.get c).length) :
    (afterWrite fs s c data).length ≤ (s.get c).length := by
  unfold afterWrite
  split
  · exact h
  · split <;> simp

/-! ## The size ceiling is an invariant -/

theorem append_length_le (c d : Coll) (fs : FsOutcome) (s : Store) (r : JVal)
    (hd : d ∈ bounded) (h : (s.get d).length ≤ 5000) :
    ((append c fs s r).2.get d).length ≤ 5000 := by
  rcases append_cases c fs s r with ⟨_, h0 | ⟨_, _, h0⟩⟩ | ⟨h1, _, h3, _⟩
  · rw [h0]; exact h
  · rw [h0]
    by_cases hdc : d = c
    · subst hdc; simp
    · rw [Store.get_set_of_ne _ _ hdc]; exact h
  · rw [h1]
    by_cases hdc : d = c
    · subst hdc
      have := h3 hd
      simp only [Store.get_set_self, List.length_append, List.length_singleton]
      omega
    · rw [Store.get_set_of_ne _ _ hdc]; exact h

theorem postIdeasEdit_length_le (d : Coll) (fs : FsOutcome) (s : Store) (body : JVal) :
    ((postIdeasEdit fs s body).2.get d).length ≤ (s.get d).length := by
  cases hf : findIndex (hasTitle (body.field "oldTitle")) (loaded fs s .ideas) with
  | none => rw [postIdeasEdit_not_found hf]
  | some k =>
    rw [postIdeasEdit_found hf]
    by_cases hd : d = .ideas
    · subst hd
      split
      · simpa using loaded_length_le fs s .ideas
      · split <;> simp
    · split
      · simp [Store.get_set_of_ne _ _ hd]
      · split <;> simp [Store.get_set_of_ne _ _ hd]

theorem postIdeasDelete_length_le (d : Coll) (fs : FsOutcome) (s : Store) (body : JVal) :
    ((postIdeasDelete fs s body).2.get d).length ≤ (s.get d).length := by
  cases hf : findIndex (hasTitle (body.field "title")) (loaded fs s .ideas) with
  | none => rw [postIdeasDelete_not_found hf]
  | some k =>
    rw [postIdeasDelete_found hf]
    cases d <;> simp only [Store.get] <;>
      first
      | exact Nat.le_refl _
      | exact afterWrite_length_le fs s _ _
          (Nat.le_trans (splice_length_le _ _ _) (loaded_length_le fs s _))
      | exact afterWrite_length_le fs s _ _
          (Nat.le_trans (List.length_filter_le _ _) (loaded_length_le fs s _))

theorem postCommentsDelete_length_le (conv : JVal → JSNum) (d : Coll) (fs : FsOutcome)
    (s : Store) (body : JVal) :
    ((postCommentsDelete conv fs s body).2.get d).length ≤ (s.get d).length := by
  rcases postCommentsDelete_cases conv fs s body with ⟨_, h0 | ⟨_, _, h0⟩⟩ | h1
  · rw [h0]
  · rw [h0]
    by_cases hd : d = .comments
    · subst hd; simp
    · simp [Store.get_set_of_ne _ _ hd]
  · rw [h1]
    by_cases hd : d = .comments
    · subst hd
      simpa using Nat.le_trans (splice_length_le _ _ _) (loaded_length_le fs s .comments)
    · simp [Store.get_set_of_ne _ _ hd]

theorem handle_length_le (conv : JVal → JSNum) (fs : FsOutcome) (s : Store) (req : Request)
    (d : Coll) (hd : d ∈ bounded) (h : (s.get d).length ≤ 5000) :
    ((handle conv fs s req).2.get d).length ≤ 5000 := by
  cases req with
  | users body => exact append_length_le .users d fs s body hd h
  | ideas body => exact append_length_le .ideas d fs s body hd h
  | ideasEdit body => exact Nat.le_trans (postIdeasEdit_length_le d fs s body) h
  | ideasDelete body => exact Nat.le_trans (postIdeasDelete_length_le d fs s body) h
  | fund body => exact append_length_le .funds d fs s body hd h
  | votes body => exact append_length_le .votes d fs s body hd h
  | comments body => exact append_length_le .comments d fs s body hd h
  | commentsDelete body => exact Nat.le_trans (postCommentsDelete_length_le conv d fs s body) h
  | chatMessages body => exact append_length_le .chat_messages d fs s body hd h
  | activityLog body => exact append_length_le .activity_log d fs s body hd h

theorem reachable_length_le {conv : JVal → JSNum} {s : Store} (h : Reachable conv s)
    (d : Coll) (hd : d ∈ bounded) : (s.get d).length ≤ 5000 := by
  induction h with
  | init => cases d <;> simp [Store.empty, Store.get]
  | step fs req _ ih => exact handle_length_le conv fs _ req d hd ih

/-! ## Frame: the collections a handler leaves alone -/

theorem append_get_of_ne (c : Coll) {d : Coll} (fs : FsOutcome) (s : Store) (r : JVal)
    (h : d ≠ c) : (append c fs s r).2.get d = s.get d := by
  rcases append_cases c fs s r with ⟨_, h0 | ⟨_, _, h0⟩⟩ | ⟨h1, _⟩
  · rw [h0]
  · rw [h0]; exact Store.get_set_of_ne _ _ h
  · rw [h1]; exact Store.get_set_of_ne _ _ h

theorem postIdeasEdit_get_of_ne {d : Coll} (fs : FsOutcome) (s : Store) (body : JVal)
    (h : d ≠ .ideas) : (postIdeasEdit fs s body).2.get d = s.get d := by
  cases hf : findIndex (hasTitle (body.field "oldTitle")) (loaded fs s .ideas) with
  | none => rw [postIdeasEdit_not_found hf]
  | some k =>
    rw [postIdeasEdit_found hf]
    split
    · exact Store.get_set_of_ne _ _ h
    · split
      · exact Store.get_set_of_ne _ _ h
      · rfl

theorem postCommentsDelete_get_of_ne (conv : JVal → JSNum) {d : Coll} (fs : FsOutcome)
    (s : Store) (body : JVal) (h : d ≠ .comments) :
    (postCommentsDelete conv fs s body).2.get d = s.get d := by
  rcases postCommentsDelete_cases conv fs s body with ⟨_, h0 | ⟨_, _, h0⟩⟩ | h1
  · rw [h0]
  · rw [h0]; exact Store.get_set_of_ne _ _ h
  · rw [h1]; exact Store.get_set_of_ne _ _ h

theorem postIdeasDelete_users (fs : FsOutcome) (s : Store) (body : JVal) :
    (postIdeasDelete fs s body).2.users = s.users := by
  cases hf : findIndex (hasTitle (body.field "title")) (loaded fs s .ideas) with
  | none => rw [postIdeasDelete_not_found hf]
  | some k => rw [postIdeasDelete_found hf]

theorem postIdeasDelete_activity_log (fs : FsOutcome) (s : Store) (body : JVal) :
    (postIdeasDelete fs s body).2.activity_log = s.activity_log := by
  cases hf : findIndex (hasTitle (body.field "title")) (loaded fs s .ideas) with
  | none => rw [postIdeasDelete_not_found hf]
  | some k => rw [postIdeasDelete_found hf]

theorem storeAfterRename_reachable (conv : JVal → JSNum) :
    Reachable conv (storeAfterRename conv) :=
  .step _ _ (.step _ _ (.step _ _ .init))

/-! ## Deleting an idea twice -/

theorem countP_eraseIdx_add_one {α : Type} {p : α → Bool} {xs : List α} {k : Nat} {x : α}
    (h : xs[k]? = some x) (hp : p x = true) :
    (xs.eraseIdx k).countP p + 1 = xs.countP p := by
  induction xs generalizing k with
  | nil => simp at h
  | cons y ys ih =>
    cases k with
    | zero =>
      simp at h
      subst h
      simp [List.countP_cons, hp]
    | succ k =>
      simp at h
      simp only [List.eraseIdx_cons_succ, List.countP_cons]
      have := ih h
      omega

theorem postIdeasDelete_ok_iff {fs : FsOutcome} {s : Store} {body : JVal}
    (hok : (postIdeasDelete fs s body).1 = Response.ok) :
    ∃ k, findIndex (hasTitle (body.field "title")) (loaded fs s .ideas) = some k ∧
      fs.readOk .ideas = true ∧ fs.writeOk .ideas = true ∧ fs.writeOk .funds = true ∧
      fs.writeOk .votes = true ∧ fs.writeOk .comments = true ∧
      fs.writeOk .chat_messages = true := by
  cases hf : findIndex (hasTitle (body.field "title")) (loaded fs s .ideas) with
  | none =>
    rw [postIdeasDelete_not_found hf] at hok
    simp [Response.fail, Response.ok] at hok
  | some k =>
    have hread : fs.readOk .ideas = true := by
      cases hro : fs.readOk .ideas with
      | true => rfl
      | false => simp [loaded, hro, findIndex] at hf
    rw [postIdeasDelete_found hf] at hok
    simp only at hok
    split at hok
    · rename_i hall
      simp only [Bool.and_eq_true] at hall
      exact ⟨k, rfl, hread, hall.1.1.1.1, hall.1.1.1.2, hall.1.1.2, hall.1.2, hall.2⟩
    · simp [Response.fail, Response.ok] at hok

/-! ## Appending to a collection -/

theorem append_of_success {c : Coll} {fs : FsOutcome} {s : Store} {r : JVal}
    (h : (append c fs s r).1.success = true) :
    append c fs s r = (Response.ok, s.set c (loaded fs s c ++ [r.stringify])) := by
  rcases append_cases c fs s r with ⟨h0, _⟩ | ⟨h1, _⟩
  · rw [h0] at h; exact absurd h (by decide)
  · exact h1

theorem append_full {c : Coll} {fs : FsOutcome} {s : Store} (r : JVal) (hc : c ∈ bounded)
    (hr : fs.readOk c = true) (hlen : 5000 ≤ (s.get c).length)
    (hnc : ∀ x ∈ s.get c, collides c x r = false) :
    append c fs s r = (Response.fail (limitMessage c), s) := by
  have hread := readJsonFile_of_readOk s hr
  simp only [bounded, List.mem_cons, List.mem_singleton, List.not_mem_nil, or_false] at hc
  rcases hc with rfl | rfl | rfl | rfl | rfl
  · have hany : ((s.get .users).map Json.parse).any
        (fun u => strictEq (u.field "username") (r.field "username")) = false := by
      simpa [collides, sameUsername, Json.field, List.any_map] using hnc
    simp [append, postUsers, hread, hany, hlen, limitMessage]
  · have hany : ((s.get .ideas).map Json.parse).any
        (fun i => strictEq (i.field "title") (r.field "title")) = false := by
      simpa [collides, sameTitleAs, Json.field, List.any_map] using hnc
    simp [append, postIdeas, hread, hany, hlen, limitMessage]
  · have hany : ((s.get .votes).map Json.parse).any
        (fun v => strictEq (v.field "username") (r.field "username") &&
          strictEq (v.field "ideaTitle") (r.field "ideaTitle")) = false := by
      simpa [collides, sameVote, Json.field, List.any_map] using hnc
    simp [append, postVotes, hread, hany, hlen, limitMessage]
  · simp [append, postComments, hread, hlen, limitMessage]
  · simp [append, postChatMessages, hread, hlen, limitMessage]

/-- A full collection that is read refuses every append and stays as it is:
the handler answers before any write. -/
theorem append_refused_of_full {c : Coll} {fs : FsOutcome} {s : Store} (r : JVal)
    (hc : c ∈ bounded) (hr : fs.readOk c = true) (hlen : 5000 ≤ (s.get c).length) :
    (append c fs s r).2 = s ∧ (append c fs s r).1.success = false := by
  have hread := readJsonFile_of_readOk s hr
  simp only [bounded, List.mem_cons, List.mem_singleton, List.not_mem_nil, or_false] at hc
  rcases hc with rfl | rfl | rfl | rfl | rfl
  · simp only [append, postUsers, hread]
    split
    · exact ⟨rfl, rfl⟩
    · simp [hlen, Response.fail]
  · simp only [append, postIdeas, hread]
    split
    · exact ⟨rfl, rfl⟩
    · simp [hlen, Response.fail]
  · simp only [append, postVotes, hread]
    split
    · exact ⟨rfl, rfl⟩
    · simp [hlen, Response.fail]
  · simp [append, postComments, hread, hlen, Response.fail]
  · simp [append, postChatMessages, hread, hlen, Response.fail]

theorem appendAll_length (c : Coll) (reqs : List (FsOutcome × JVal)) (s s' : Store)
    (hr : ∀ q ∈ reqs, q.1.readOk c = true) (h : appendAll c s reqs = some s') :
    (s'.get c).length = (s.get c).length + reqs.length := by
  induction reqs generalizing s with
  | nil =>
    simp only [appendAll, Option.some.injEq] at h
    simp [← h]
  | cons q rest ih =>
    obtain ⟨fs, r⟩ := q
    simp only [appendAll] at h
    split at h
    · rename_i hs
      have hq : fs.readOk c = true := hr (fs, r) (List.mem_cons_self _ _)
      have hrest := ih _ (fun q hq => hr q (List.mem_cons_of_mem _ hq)) h
      rw [append_of_success hs, Store.get_set_self, loaded_of_readOk s hq] at hrest
      simp only [List.length_append, List.length_cons, List.length_nil] at hrest ⊢
      omega
    · exact absurd h (by simp)

theorem appendAll_comments_replicate (r : Json) (n : Nat) (s : Store)
    (h : s.comments.length + n ≤ 5000) :
    appendAll .comments s (List.replicate n (FsOutcome.allOk, r.parse)) =
      some { s with comments := s.comments ++ List.replicate n r } := by
  induction n generalizing s with
  | zero => simp [appendAll]
  | succ n ih =>
    have hlt : ¬ 5000 ≤ s.comments.length := by omega
    have hstep : append .comments .allOk s r.parse =
        (Response.ok, { s with comments := s.comments ++ [r] }) := by
      simp [append, postComments, readJsonFile, writeJsonFile, FsOutcome.allOk, Store.get,
        Store.set, hlt, map_stringify_comp_parse, Json.stringify_parse]
    rw [List.replicate_succ, appendAll, hstep]
    simp only [Response.ok, if_true]
    rw [ih _ (by simp only [List.length_append, List.length_singleton]; omega)]
    simp [List.replicate_succ]

theorem list_eq_readJsonFile (c : Coll) (fs : FsOutcome) (s : Store) :
    list c fs s = readJsonFile fs s c := by
  cases c <;> rfl

/-! ## Positions refused by `POST /comments/delete` -/

/-- An `index` whose number is negative, or at least the length of the list
read, is refused with "Comment not found" and the store is left as it was. -/
theorem postCommentsDelete_out_of_range (conv : JVal → JSNum) (fs : FsOutcome) (s : Store)
    (body : JVal) (q : ℚ) (hq : toNumber conv (body.field "index") = .fin q)
    (hout : q < 0 ∨ ((readJsonFile fs s .comments).length : ℚ) ≤ q) :
    postCommentsDelete conv fs s body = (Response.fail "Comment not found", s) := by
  have hguard : (JSNum.lt (.fin q) (.fin 0) ||
      JSNum.ge (.fin q) (.fin ((readJsonFile fs s .comments).length : ℚ))) = true := by
    rcases hout with h | h
    · simp [JSNum.lt, h]
    · simp [JSNum.ge, JSNum.lt, h]
  simp only [postCommentsDelete, hq, hguard, if_true]

/-! ## The record stored by `POST /ideas/edit` -/

theorem lookup_filterMap_of_not_mem (props : List (String × Option JVal)) (name : String)
    (h : name ∉ props.map Prod.fst) :
    (props.filterMap fun kv => kv.2.map fun v => (kv.1, v)).lookup name = none := by
  induction props with
  | nil => rfl
  | cons kv rest ih =>
    obtain ⟨k, v⟩ := kv
    simp only [List.map_cons, List.mem_cons, not_or] at h
    have hne : (name == k) = false := by simpa using h.1
    cases v with
    | none => simpa [List.filterMap_cons] using ih h.2
    | some x => simpa [List.filterMap_cons, List.lookup_cons, hne] using ih h.2

theorem objectLiteral_field (props : List (String × Option JVal)) (name : String)
    (hnd : (props.map Prod.fst).Nodup) :
    (objectLiteral props).field name = (props.lookup name).join := by
  unfold objectLiteral JVal.field
  induction props with
  | nil => rfl
  | cons kv rest ih =>
    obtain ⟨k, v⟩ := kv
    simp only [List.map_cons, List.nodup_cons] at hnd
    by_cases hk : name = k
    · subst hk
      cases v with
      | none =>
        simpa [List.filterMap_cons, List.lookup_cons] using
          lookup_filterMap_of_not_mem rest name hnd.1
      | some x => simp [List.filterMap_cons, List.lookup_cons]
    · have hne : (name == k) = false := by simpa using hk
      cases v with
      | none => simpa [List.filterMap_cons, List.lookup_cons, hne] using ih hnd.2
      | some x => simpa [List.filterMap_cons, List.lookup_cons, hne] using ih hnd.2

/-- The fields of the record stored by `POST /ideas/edit`: the six named
fields, read from the body (`title` from `newTitle`), and nothing else. -/
theorem editedIdea_field (body : JVal) :
    (editedIdea body).field "title" = body.field "newTitle" ∧
      (editedIdea body).field "description" = body.field "description" ∧
      (editedIdea body).field "creator" = body.field "creator" ∧
      (editedIdea body).field "category" = body.field "category" ∧
      (editedIdea body).field "fundingGoal" = body.field "fundingGoal" ∧
      (editedIdea body).field "status" = body.field "status" ∧
      ∀ name, name ∉ ["title", "description", "creator", "category", "fundingGoal", "status"] →
        (editedIdea body).field name = none := by
  have hnd : (([("title", body.field "newTitle"), ("description", body.field "description"),
      ("creator", body.field "creator"), ("category", body.field "category"),
      ("fundingGoal", body.field "fundingGoal"), ("status", body.field "status")] :
      List (String × Option JVal)).map Prod.fst).Nodup := by
    simp only [List.map_cons, List.map_nil]
    decide
  refine ⟨?_, ?_, ?_, ?_, ?_, ?_, ?_⟩
  · rw [editedIdea, objectLiteral_field _ _ hnd]; rfl
  · rw [editedIdea, objectLiteral_field _ _ hnd]; rfl
  · rw [editedIdea, objectLiteral_field _ _ hnd]; rfl
  · rw [editedIdea, objectLiteral_field _ _ hnd]; rfl
  · rw [editedIdea, objectLiteral_field _ _ hnd]; rfl
  · rw [editedIdea, objectLiteral_field _ _ hnd]; rfl
  · intro name hname
    simp only [List.mem_cons, List.mem_singleton, List.not_mem_nil, or_false, not_or] at hname
    obtain ⟨h1, h2, h3, h4, h5, h6⟩ := hname
    have e1 : (name == "title") = false := by simpa using h1
    have e2 : (name == "description") = false := by simpa using h2
    have e3 : (name == "creator") = false := by simpa using h3
    have e4 : (name == "category") = false := by simpa using h4
    have e5 : (name == "fundingGoal") = false := by simpa using h5
    have e6 : (name == "status") = false := by simpa using h6
    rw [editedIdea, objectLiteral_field _ _ hnd]
    simp only [List.lookup_cons, List.lookup_nil, e1, e2, e3, e4, e5, e6]
    rfl

theorem lookup_parseProps_stringifyProps (props : List (String × JVal)) (name : String) :
    (Json.parseProps (JVal.stringifyProps props)).lookup name =
      (props.lookup name).map JVal.stored := by
  induction props with
  | nil => rfl
  | cons kv rest ih =>
    obtain ⟨k, v⟩ := kv
    by_cases hk : name = k
    · subst hk
      simp [JVal.stringifyProps, Json.parseProps, List.lookup_cons, JVal.stored]
    · have hne : (name == k) = false := by simpa using hk
      simpa [JVal.stringifyProps, Json.parseProps, List.lookup_cons, hne] using ih

/-- A property of a written record, read back: the property of the record in
memory, as `JSON.stringify` writes it. -/
theorem stringify_field (v : JVal) (name : String) :
    v.stringify.field name = (v.field name).map JVal.stored := by
  cases v with
  | obj props =>
    simp only [Json.field, JVal.stringify, Json.parse, JVal.field]
    exact lookup_parseProps_stringifyProps props name
  | arr items => simp [Json.field, JVal.stringify, Json.parse, JVal.field]
  | null => rfl
  | bool b => rfl
  | num q => rfl
  | inf n => rfl
  | str t => rfl

/-! ## Deleting an idea that is not in the store -/

theorem postIdeasDelete_of_absent (fs : FsOutcome) {s : Store} {body : JVal}
    (h : ∀ x ∈ s.ideas, hasTitle (body.field "title") x = false) :
    postIdeasDelete fs s body = (Response.fail "Idea not found", s) := by
  apply postIdeasDelete_not_found
  apply findIndex_eq_none.mpr
  intro x hx
  exact h x (mem_of_mem_loaded hx)

theorem foldl_postIdeasDelete_of_absent (fss : List FsOutcome) {s : Store} {body : JVal}
    (h : ∀ x ∈ s.ideas, hasTitle (body.field "title") x = false) :
    fss.foldl (fun st fs => (postIdeasDelete fs st body).2) s = s := by
  induction fss with
  | nil => rfl
  | cons fs rest ih =>
    rw [List.foldl_cons, postIdeasDelete_of_absent fs h]
    exact ih

/-! ## The claims -/

/-- C1. The uniqueness invariant fails for `ideas`: after `POST /ideas` with
title `"A"`, `POST /ideas` with title `"B"` and `POST /ideas/edit` renaming
`"A"` to `"B"`, all answered `success: true`, the reachable store holds two
ideas with the title `"B"`. -/
theorem edit_breaks_title_uniqueness (conv : JVal → JSNum) :
    Reachable conv (storeAfterRename conv) ∧
      (storeAfterRename conv).ideas = [ideaB, ideaB] ∧
      sameTitle ideaB ideaB = true ∧
      ¬ Unique sameTitle (storeAfterRename conv).ideas := by
  refine ⟨storeAfterRename_reachable conv, rfl, by decide, ?_⟩
  intro h
  have h2 : Unique sameTitle [ideaB, ideaB] := h
  have h3 : sameTitle ideaB ideaB = false :=
    List.rel_of_pairwise_cons h2 (List.mem_singleton.mpr rfl)
  exact absurd h3 (by decide)

/-- C2. Duplicate rejection: when the collection is read and already holds a
record whose key is `===` to the key of the new record, `POST /users`,
`POST /ideas` and `POST /votes` answer `success: false` with the messages
"Username already exists", "Idea title already exists" and "You have already
voted", and the whole store is left as it was. -/
theorem duplicate_rejected (fs : FsOutcome) (s : Store) (r : JVal) :
    (fs.readOk .users = true →
      (∃ u ∈ s.users, strictEq (u.field "username") (r.field "username") = true) →
      postUsers fs s r = (Response.fail "Username already exists", s)) ∧
    (fs.readOk .ideas = true →
      (∃ i ∈ s.ideas, strictEq (i.field "title") (r.field "title") = true) →
      postIdeas fs s r = (Response.fail "Idea title already exists", s)) ∧
    (fs.readOk .votes = true →
      (∃ v ∈ s.votes, strictEq (v.field "username") (r.field "username") = true ∧
        strictEq (v.field "ideaTitle") (r.field "ideaTitle") = true) →
      postVotes fs s r = (Response.fail "You have already voted", s)) := by
  refine ⟨?_, ?_, ?_⟩
  · intro hr ⟨u, hu, he⟩
    have hany : (readJsonFile fs s .users).any
        (fun u => strictEq (u.field "username") (r.field "username")) = true := by
      rw [readJsonFile_of_readOk s hr]
      exact List.any_eq_true.mpr ⟨u.parse, List.mem_map_of_mem _ hu, he⟩
    simp [postUsers, hany]
  · intro hr ⟨i, hi, he⟩
    have hany : (readJsonFile fs s .ideas).any
        (fun i => strictEq (i.field "title") (r.field "title")) = true := by
      rw [readJsonFile_of_readOk s hr]
      exact List.any_eq_true.mpr ⟨i.parse, List.mem_map_of_mem _ hi, he⟩
    simp [postIdeas, hany]
  · intro hr ⟨v, hv, he1, he2⟩
    have hany : (readJsonFile fs s .votes).any
        (fun v => strictEq (v.field "username") (r.field "username") &&
          strictEq (v.field "ideaTitle") (r.field "ideaTitle")) = true := by
      rw [readJsonFile_of_readOk s hr]
      refine List.any_eq_true.mpr ⟨v.parse, List.mem_map_of_mem _ hv, ?_⟩
      have h1 : strictEq (v.parse.field "username") (r.field "username") = true := he1
      have h2 : strictEq (v.parse.field "ideaTitle") (r.field "ideaTitle") = true := he2
      simp [h1, h2]
    simp [postVotes, hany]

/-- Witness of C2 on `sampleStore`: a second `alice`, a second idea `"A"` and a
second vote of `alice` on `"A"` are rejected. -/
theorem duplicate_rejected_witness :
    postUsers .allOk sampleStore userAlice.parse =
        (Response.fail "Username already exists", sampleStore) ∧
      postIdeas .allOk sampleStore ideaA.parse =
        (Response.fail "Idea title already exists", sampleStore) ∧
      postVotes .allOk sampleStore voteAliceA.parse =
        (Response.fail "You have already voted", sampleStore) :=
  ⟨(duplicate_rejected .allOk sampleStore userAlice.parse).1 rfl
      ⟨userAlice, List.mem_singleton.mpr rfl, by decide⟩,
   (duplicate_rejected .allOk sampleStore ideaA.parse).2.1 rfl
      ⟨ideaA, List.mem_cons_self _ _, by decide⟩,
   (duplicate_rejected .allOk sampleStore voteAliceA.parse).2.2 rfl
      ⟨voteAliceA, List.mem_singleton.mpr rfl, by decide, by decide⟩⟩

/-- C3. Cascade delete: when `ideas` holds a record whose title is the `title`
of the body, every read succeeds and the five writes succeed,
`POST /ideas/delete` answers `success: true`; `funds`, `votes`, `comments` and
`chat_messages` become their previous content without the records whose
`ideaTitle` is that title, the other records kept in order, so that no record
with that `ideaTitle` is left; and `ideas` loses exactly one record, the first
one with that title. -/
theorem cascade_delete (fs : FsOutcome) (s : Store) (body : JVal)
    (hr : ∀ c, fs.readOk c = true) (hw : ∀ c, fs.writeOk c = true)
    (hex : ∃ i ∈ s.ideas, strictEq (i.field "title") (body.field "title") = true) :
    (postIdeasDelete fs s body).1 = Response.ok ∧
    (postIdeasDelete fs s body).2.funds =
      s.funds.filter (fun f => !strictEq (f.field "ideaTitle") (body.field "title")) ∧
    (postIdeasDelete fs s body).2.votes =
      s.votes.filter (fun v => !strictEq (v.field "ideaTitle") (body.field "title")) ∧
    (postIdeasDelete fs s body).2.comments =
      s.comments.filter (fun c => !strictEq (c.field "ideaTitle") (body.field "title")) ∧
    (postIdeasDelete fs s body).2.chat_messages =
      s.chat_messages.filter
        (fun m => !strictEq (m.field "ideaTitle") (body.field "title")) ∧
    (∀ x, x ∈ (postIdeasDelete fs s body).2.funds ∨ x ∈ (postIdeasDelete fs s body).2.votes ∨
        x ∈ (postIdeasDelete fs s body).2.comments ∨
        x ∈ (postIdeasDelete fs s body).2.chat_messages →
      strictEq (x.field "ideaTitle") (body.field "title") = false) ∧
    (∃ k i, s.ideas[k]? = some i ∧
      strictEq (i.field "title") (body.field "title") = true ∧
      (∀ j < k, ∀ x, s.ideas[j]? = some x →
        strictEq (x.field "title") (body.field "title") = false) ∧
      (postIdeasDelete fs s body).2.ideas = s.ideas.eraseIdx k) ∧
    (postIdeasDelete fs s body).2.ideas.length + 1 = s.ideas.length := by
  have hread : ∀ c, loaded fs s c = s.get c := fun c => loaded_of_readOk s (hr c)
  cases hf : findIndex (hasTitle (body.field "title")) (loaded fs s .ideas) with
  | none =>
    obtain ⟨i, hi, he⟩ := hex
    rw [hread] at hf
    have := findIndex_eq_none.mp hf i hi
    simp [hasTitle, he] at this
  | some k =>
    have hk : k < s.ideas.length := by
      have := findIndex_lt_length hf
      rwa [hread] at this
    obtain ⟨i, hi, hpi, hfirst⟩ := findIndex_eq_some hf
    rw [hread] at hi hfirst
    have hsp : splice s.ideas (.fin (k : ℚ)) 1 = s.ideas.eraseIdx k :=
      splice_natCast_one s.ideas hk
    rw [postIdeasDelete_found hf]
    simp only [hw, hread, Bool.and_self, if_true, Store.get, refersTo, hsp, afterWrite]
    refine ⟨trivial, trivial, trivial, trivial, trivial, ?_, ⟨k, i, hi, hpi, hfirst, rfl⟩, ?_⟩
    · intro x hx
      simp only [List.mem_filter, Bool.not_eq_true'] at hx
      rcases hx with h | h | h | h <;> exact h.2
    · rw [List.length_eraseIdx]
      simp [hk]
      omega

/-- Witness of C3: deleting idea `"A"` from `sampleStore`. -/
theorem cascade_delete_witness :
    (postIdeasDelete .allOk sampleStore deleteA).1 = Response.ok ∧
      (postIdeasDelete .allOk sampleStore deleteA).2.funds = [fundB] ∧
      (postIdeasDelete .allOk sampleStore deleteA).2.votes = [] ∧
      (postIdeasDelete .allOk sampleStore deleteA).2.comments = [commentB] ∧
      (postIdeasDelete .allOk sampleStore deleteA).2.chat_messages = [] ∧
      (postIdeasDelete .allOk sampleStore deleteA).2.ideas.length + 1 = 2 :=
  have h := cascade_delete .allOk sampleStore deleteA (fun _ => rfl) (fun _ => rfl)
    ⟨ideaA, List.mem_cons_self _ _, by decide⟩
  ⟨h.1, h.2.1.trans rfl, h.2.2.1.trans rfl, h.2.2.2.1.trans rfl, h.2.2.2.2.1.trans rfl,
    h.2.2.2.2.2.2.2⟩

/-- C4, as stated, fails when two ideas carry the title: in the store reached
by `POST /ideas` "A", `POST /ideas` "B" and `POST /ideas/edit` "A" to "B", the
first `POST /ideas/delete` of "B" succeeds and leaves one idea "B", and the
second one succeeds too and removes it. -/
theorem second_delete_succeeds_on_duplicate_title :
    (postIdeasDelete .allOk (storeAfterRename convNaN) deleteB).1 = Response.ok ∧
      (postIdeasDelete .allOk (storeAfterRename convNaN) deleteB).2.ideas = [ideaB] ∧
      (postIdeasDelete .allOk
        (postIdeasDelete .allOk (storeAfterRename convNaN) deleteB).2 deleteB).1 =
          Response.ok ∧
      (postIdeasDelete .allOk
        (postIdeasDelete .allOk (storeAfterRename convNaN) deleteB).2 deleteB).2.ideas = [] ∧
      ¬ ∀ (fs1 fs2 : FsOutcome) (s : Store) (body : JVal),
        (postIdeasDelete fs1 s body).1 = Response.ok →
        postIdeasDelete fs2 (postIdeasDelete fs1 s body).2 body =
          (Response.fail "Idea not found", (postIdeasDelete fs1 s body).2) := by
  refine ⟨rfl, rfl, rfl, rfl, ?_⟩
  intro h
  have h2 := congrArg (fun r => r.1.success)
    (h .allOk .allOk (storeAfterRename convNaN) deleteB rfl)
  exact absurd h2 (by decide)

/-- C4, amended. When at most one idea carries the `title` of the body and a
first `POST /ideas/delete` answers `success: true`, a second one with the same
body, whatever the outcome of its file system calls, answers `success: false`
with "Idea not found" and leaves the whole store as the first call left it. -/
theorem second_delete_not_found (fs1 fs2 : FsOutcome) (s : Store) (body : JVal)
    (hone : s.ideas.countP
      (fun i => strictEq (i.field "title") (body.field "title")) ≤ 1)
    (hok : (postIdeasDelete fs1 s body).1 = Response.ok) :
    postIdeasDelete fs2 (postIdeasDelete fs1 s body).2 body =
      (Response.fail "Idea not found", (postIdeasDelete fs1 s body).2) := by
  obtain ⟨k, hf, hro, hwi, -⟩ := postIdeasDelete_ok_iff hok
  have hread : loaded fs1 s .ideas = s.ideas := loaded_of_readOk s hro
  rw [hread] at hf
  obtain ⟨i, hi, hpi, -⟩ := findIndex_eq_some hf
  have hk := findIndex_lt_length hf
  have hideas : (postIdeasDelete fs1 s body).2.ideas = s.ideas.eraseIdx k := by
    rw [postIdeasDelete_found (hread ▸ hf)]
    simp only [afterWrite, hwi, if_true, hread]
    exact splice_natCast_one s.ideas hk
  have hcount := countP_eraseIdx_add_one hi hpi
  have hzero : (s.ideas.eraseIdx k).countP (hasTitle (body.field "title")) = 0 := by
    have : s.ideas.countP (hasTitle (body.field "title")) ≤ 1 := hone
    omega
  apply postIdeasDelete_of_absent
  intro x hx
  rw [hideas] at hx
  simpa using List.countP_eq_zero.mp hzero x hx

/-- Witness of the amended C4: deleting idea `"A"` twice from `sampleStore`. -/
theorem second_delete_not_found_witness :
    postIdeasDelete .allOk (postIdeasDelete .allOk sampleStore deleteA).2 deleteA =
      (Response.fail "Idea not found", (postIdeasDelete .allOk sampleStore deleteA).2) :=
  second_delete_not_found .allOk .allOk sampleStore deleteA (by decide) rfl

/-- C5. Ceiling invariant: in every store reachable from the empty store by any
sequence of requests to the mutating endpoints, whatever the outcome of the
file system calls, `users`, `ideas`, `votes`, `comments` and `chat_messages`
each hold at most 5000 records. -/
theorem ceiling_invariant (conv : JVal → JSNum) (s : Store) (h : Reachable conv s) :
    s.users.length ≤ 5000 ∧ s.ideas.length ≤ 5000 ∧ s.votes.length ≤ 5000 ∧
      s.comments.length ≤ 5000 ∧ s.chat_messages.length ≤ 5000 :=
  ⟨reachable_length_le h .users (by simp [bounded]),
   reachable_length_le h .ideas (by simp [bounded]),
   reachable_length_le h .votes (by simp [bounded]),
   reachable_length_le h .comments (by simp [bounded]),
   reachable_length_le h .chat_messages (by simp [bounded])⟩

/-- Witness of C5 on the store reached by two `POST /ideas` and one
`POST /ideas/edit`. -/
theorem ceiling_invariant_witness :
    Reachable convNaN (storeAfterRename convNaN) ∧
      (storeAfterRename convNaN).users.length ≤ 5000 ∧
      (storeAfterRename convNaN).ideas.length ≤ 5000 ∧
      (storeAfterRename convNaN).votes.length ≤ 5000 ∧
      (storeAfterRename convNaN).comments.length ≤ 5000 ∧
      (storeAfterRename convNaN).chat_messages.length ≤ 5000 :=
  ⟨storeAfterRename_reachable convNaN,
   ceiling_invariant convNaN (storeAfterRename convNaN) (storeAfterRename_reachable convNaN)⟩

/-- C6. CollectionFull. For each of `users`, `ideas`, `votes`, `comments` and
`chat_messages`: when the collection is read and holds 5000 records or more,
the append of a record that collides with no stored record on the uniqueness
key answers `success: false` with the limit message of the collection and
leaves the store as it was. And after 5000 appends to an empty collection that
all answered `success: true`, the collection holds 5000 records and every
further append answers `success: false` and leaves the store as it was, with
the limit message when the record collides with none. -/
theorem collection_full :
    (∀ (c : Coll) (fs : FsOutcome) (s : Store) (r : JVal), c ∈ bounded →
      fs.readOk c = true → 5000 ≤ (s.get c).length →
      (∀ x ∈ s.get c, collides c x r = false) →
      append c fs s r = (Response.fail (limitMessage c), s)) ∧
    (∀ (c : Coll) (s s' : Store) (reqs : List (FsOutcome × JVal)), c ∈ bounded →
      s.get c = [] → reqs.length = 5000 → (∀ q ∈ reqs, q.1.readOk c = true) →
      appendAll c s reqs = some s' →
      (s'.get c).length = 5000 ∧
      ∀ (fs : FsOutcome) (r : JVal), fs.readOk c = true →
        (append c fs s' r).1.success = false ∧ (append c fs s' r).2 = s' ∧
        ((∀ x ∈ s'.get c, collides c x r = false) →
          (append c fs s' r).1 = Response.fail (limitMessage c))) := by
  have part1 : ∀ (c : Coll) (fs : FsOutcome) (s : Store) (r : JVal), c ∈ bounded →
      fs.readOk c = true → 5000 ≤ (s.get c).length →
      (∀ x ∈ s.get c, collides c x r = false) →
      append c fs s r = (Response.fail (limitMessage c), s) :=
    fun c fs s r hc hr hlen hnc => append_full r hc hr hlen hnc
  refine ⟨part1, ?_⟩
  intro c s s' reqs hc hempty hn hr hall
  have hlen : (s'.get c).length = 5000 := by
    rw [appendAll_length c reqs s s' hr hall, hempty, hn]; rfl
  refine ⟨hlen, fun fs r hfr => ?_⟩
  have hfull := append_refused_of_full r hc hfr (Nat.le_of_eq hlen.symm)
  refine ⟨hfull.2, hfull.1, fun hnc => ?_⟩
  rw [part1 c fs s' r hc hfr (Nat.le_of_eq hlen.symm) hnc]

/-- Witness of C6 on `comments`: 5000 appends of `commentA` to the empty store
all succeed and give `fullComments`, where one more append is refused. -/
theorem collection_full_witness :
    append .comments .allOk fullComments commentA.parse =
        (Response.fail "Comment limit reached", fullComments) ∧
      appendAll .comments Store.empty (List.replicate 5000 (.allOk, commentA.parse)) =
        some fullComments ∧
      (fullComments.get .comments).length = 5000 ∧
      (append .comments .allOk fullComments commentB.parse).1.success = false ∧
      (append .comments .allOk fullComments commentB.parse).2 = fullComments :=
  have hrun : appendAll .comments Store.empty (List.replicate 5000 (.allOk, commentA.parse)) =
      some fullComments :=
    appendAll_comments_replicate commentA 5000 Store.empty (Nat.le_refl _)
  have h2 := collection_full.2 .comments Store.empty fullComments
    (List.replicate 5000 (.allOk, commentA.parse)) (by simp [bounded]) rfl
    (List.length_replicate _ _)
    (fun q hq => by rw [List.eq_of_mem_replicate hq]; rfl) hrun
  ⟨collection_full.1 .comments .allOk fullComments commentA.parse (by simp [bounded]) rfl
      (Nat.le_of_eq (List.length_replicate 5000 commentA).symm) (fun _ _ => rfl),
    hrun, h2.1, (h2.2 .allOk commentB.parse rfl).1, (h2.2 .allOk commentB.parse rfl).2.1⟩

/-- C7, as stated, fails on a record with a number outside the range of
doubles. `POST /fund` with the body `{ "ideaTitle": "A", "amount": 1e400 }`,
parsed as `fundInf`, answers `success: true` on `sampleStore`, and `GET /funds`
then returns the previous list followed by a record whose `amount` is `null`,
which is not the record appended. -/
theorem append_round_trip_fails_on_infinity :
    (postFund .allOk sampleStore fundInf).1 = Response.ok ∧
      getFunds .allOk (postFund .allOk sampleStore fundInf).2 =
        getFunds .allOk sampleStore ++ [.obj [("ideaTitle", .str "A"), ("amount", .null)]] ∧
      getFunds .allOk (postFund .allOk sampleStore fundInf).2 ≠
        getFunds .allOk sampleStore ++ [fundInf] := by
  have h2 : getFunds .allOk (postFund .allOk sampleStore fundInf).2 =
      getFunds .allOk sampleStore ++ [.obj [("ideaTitle", .str "A"), ("amount", .null)]] := rfl
  refine ⟨rfl, h2, ?_⟩
  intro h
  rw [h2] at h
  have h3 := List.append_cancel_left h
  simp [fundInf] at h3

/-- C7, amended. For each of the seven collections, when the append of `r`
reads the collection and answers `success: true`, a following `list()` of the
collection (its `GET` handler, reading successfully) returns the previous
records, unchanged and in the same order, followed by `r` as `JSON.stringify`
writes it and `JSON.parse` reads it back, that is with `null` in the place of
every number outside the range of doubles; this last element is `r` itself
when `r` holds no such number. -/
theorem append_round_trip (c : Coll) (fs fs' : FsOutcome) (s : Store) (r : JVal)
    (hr : fs.readOk c = true) (hr' : fs'.readOk c = true)
    (hok : (append c fs s r).1.success = true) :
    list c fs' (append c fs s r).2 = list c fs' s ++ [r.stored] ∧
      (r.finite = true → list c fs' (append c fs s r).2 = list c fs' s ++ [r]) ∧
      list c fs' s = (s.get c).map Json.parse ∧
      (list c fs' (append c fs s r).2).getLast? = some r.stored ∧
      (list c fs' (append c fs s r).2).length = (s.get c).length + 1 ∧
      ∀ j < (s.get c).length,
        (list c fs' (append c fs s r).2)[j]? = (list c fs' s)[j]? := by
  have hprev : list c fs' s = (s.get c).map Json.parse := by
    rw [list_eq_readJsonFile, readJsonFile_of_readOk s hr']
  have hlist : list c fs' (append c fs s r).2 = list c fs' s ++ [r.stored] := by
    rw [hprev, list_eq_readJsonFile, readJsonFile_of_readOk _ hr', append_of_success hok,
      Store.get_set_self, loaded_of_readOk s hr]
    simp [JVal.stored]
  refine ⟨hlist, ?_, hprev, by rw [hlist]; simp, by rw [hlist, hprev]; simp, ?_⟩
  · intro hfin
    have hst : r.stored = r := JVal.stored_of_finite r hfin
    rw [hlist, hst]
  · intro j hj
    rw [hlist, List.getElem?_append_left (by rw [hprev]; simpa using hj)]

/-- Witness of the amended C7: `POST /fund` of a finite pledge on
`sampleStore`, then `GET /funds`. -/
theorem append_round_trip_witness :
    getFunds .allOk (postFund .allOk sampleStore fundB.parse).2 =
      [fundA.parse, fundB.parse, fundA.parse] ++ [fundB.parse] :=
  (append_round_trip .funds .allOk .allOk sampleStore fundB.parse rfl rfl rfl).2.1 rfl

/-- C8. Positional delete: when the body carries an integer `index` with
`0 ≤ index < comments.length`, the read and the write succeed,
`POST /comments/delete` answers `success: true` and `comments` becomes the
previous list without the element at that position: the length decreases by
one, the elements before the position keep their place and every later element
moves down by one; the other collections are untouched. In particular
`[a, b, c]` becomes `[a, c]` after a delete at position 1, and `[a]` after a
second one. -/
theorem positional_delete (conv : JVal → JSNum) :
    (∀ (fs : FsOutcome) (s : Store) (body : JVal) (i : Int),
      body.field "index" = some (.num i) → 0 ≤ i → i < s.comments.length →
      fs.readOk .comments = true → fs.writeOk .comments = true →
      postCommentsDelete conv fs s body =
          (Response.ok, { s with comments := s.comments.eraseIdx i.toNat }) ∧
        (s.comments.eraseIdx i.toNat).length + 1 = s.comments.length ∧
        (∀ j, j < i.toNat → (s.comments.eraseIdx i.toNat)[j]? = s.comments[j]?) ∧
        (∀ j, i.toNat ≤ j → (s.comments.eraseIdx i.toNat)[j]? = s.comments[j + 1]?)) ∧
    (∀ (s : Store) (a b c : Json),
      (postCommentsDelete conv .allOk { s with comments := [a, b, c] } deleteAt1).2.comments =
          [a, c] ∧
        (postCommentsDelete conv .allOk
          (postCommentsDelete conv .allOk { s with comments := [a, b, c] } deleteAt1).2
          deleteAt1).2.comments = [a]) := by
  have general : ∀ (fs : FsOutcome) (s : Store) (body : JVal) (i : Int),
      body.field "index" = some (.num i) → 0 ≤ i → i < s.comments.length →
      fs.readOk .comments = true → fs.writeOk .comments = true →
      postCommentsDelete conv fs s body =
          (Response.ok, { s with comments := s.comments.eraseIdx i.toNat }) ∧
        (s.comments.eraseIdx i.toNat).length + 1 = s.comments.length ∧
        (∀ j, j < i.toNat → (s.comments.eraseIdx i.toNat)[j]? = s.comments[j]?) ∧
        (∀ j, i.toNat ≤ j → (s.comments.eraseIdx i.toNat)[j]? = s.comments[j + 1]?) := by
    intro fs s body i hidx h0 hlt hr hw
    obtain ⟨n, rfl⟩ := Int.eq_ofNat_of_zero_le h0
    have hn : n < s.comments.length := by exact_mod_cast hlt
    have hread : readJsonFile fs s .comments = s.comments.map Json.parse :=
      readJsonFile_of_readOk s hr
    have hguard1 : JSNum.lt (.fin (n : ℚ)) (.fin 0) = false := by
      simp [JSNum.lt]
    have hguard2 : JSNum.ge (.fin (n : ℚ)) (.fin (s.comments.length : ℚ)) = false := by
      simp [JSNum.ge, JSNum.lt, hn]
    refine ⟨?_, ?_, ?_, ?_⟩
    · simp [postCommentsDelete, hidx, toNumber, hread, hguard1, hguard2, writeJsonFile, hw,
        map_stringify_splice, splice_natCast_one s.comments hn, Store.set]
    · simpa using List.length_eraseIdx_add_one hn
    · intro j hj
      exact List.getElem?_eraseIdx_of_lt _ _ _ hj
    · intro j hj
      exact List.getElem?_eraseIdx_of_ge _ _ _ hj
  refine ⟨general, ?_⟩
  intro s a b c
  have h1 : (postCommentsDelete conv .allOk { s with comments := [a, b, c] } deleteAt1).2 =
      { s with comments := [a, c] } := by
    rw [(general .allOk { s with comments := [a, b, c] } deleteAt1 1 rfl (by decide)
      (by simp) rfl rfl).1]
    rfl
  have h2 : (postCommentsDelete conv .allOk { s with comments := [a, c] } deleteAt1).2 =
      { s with comments := [a] } := by
    rw [(general .allOk { s with comments := [a, c] } deleteAt1 1 rfl (by decide)
      (by simp) rfl rfl).1]
    rfl
  rw [h1, h2]
  exact ⟨rfl, rfl⟩

/-- Witness of C8: deleting position 1 of the comments of `sampleStore`. -/
theorem positional_delete_witness :
    postCommentsDelete convNaN .allOk sampleStore deleteAt1 =
      (Response.ok, { sampleStore with comments := [commentB] }) :=
  ((positional_delete convNaN).1 .allOk sampleStore deleteAt1 1 rfl (by decide) (by decide)
    rfl rfl).1

/-- C9 fails on the code. With every read and write succeeding and comments
`[a, b, c]`: a body without `index` is answered `success: true` and the first
comment is removed, and a body with `index` 1.5 is answered `success: true` and
the comment at position 1 is removed; neither is refused with "Comment not
found". -/
theorem delete_accepts_non_position (conv : JVal → JSNum) (s : Store) (a b c : Json) :
    postCommentsDelete conv .allOk { s with comments := [a, b, c] } deleteNoIndex =
        (Response.ok, { s with comments := [b, c] }) ∧
      postCommentsDelete conv .allOk { s with comments := [a, b, c] } deleteAtOneAndHalf =
        (Response.ok, { s with comments := [a, c] }) := by
  refine ⟨?_, ?_⟩
  · simp [postCommentsDelete, deleteNoIndex, JVal.field, toNumber, readJsonFile,
      FsOutcome.allOk, Store.get, JSNum.lt, JSNum.ge, splice, actualStart, writeJsonFile,
      Store.set, Json.stringify_parse, map_stringify_comp_parse]
  have hfloor : Int.floor ((3 : ℚ) / 2) = 1 := by norm_num
  have hlt : ¬ ((3 : ℚ) / 2 < 0) := by norm_num
  have hge : ((3 : ℚ) / 2 < 3) := by norm_num
  have hpos : (0 : ℚ) ≤ 3 / 2 := by norm_num
  simp [postCommentsDelete, deleteAtOneAndHalf, JVal.field, toNumber, readJsonFile,
    FsOutcome.allOk, Store.get, JSNum.lt, JSNum.ge, hlt, hge, splice, actualStart, truncate,
    hpos, hfloor, writeJsonFile, Store.set, Json.stringify_parse, map_stringify_comp_parse]

/-- C10, as stated, fails on a body with a number outside the range of
doubles. `POST /ideas/edit` of idea `"A"` in `storeWithExtra` with a
`fundingGoal` of `1e400`, parsed as `Infinity`, answers `success: true` and
stores a record whose `fundingGoal` is `null`, not the value of the body. -/
theorem replace_by_key_fails_on_infinity :
    editAtoInf.field "fundingGoal" = some (.inf false) ∧
      postIdeasEdit .allOk storeWithExtra editAtoInf =
        (Response.ok, { storeWithExtra with
          ideas := [ideaB, .obj [("title", .str "A"), ("fundingGoal", .null)]] }) ∧
      (Json.obj [("title", .str "A"), ("fundingGoal", .null)]).field "fundingGoal" =
        some .null ∧
      (Json.obj [("title", .str "A"), ("fundingGoal", .null)]).field "fundingGoal" ≠
        editAtoInf.field "fundingGoal" := by
  refine ⟨rfl, rfl, rfl, ?_⟩
  intro h
  have h2 : (some JVal.null : Option JVal) = some (.inf false) := h
  simp at h2

/-- C10, amended. When `ideas` is read and written successfully and holds a
record whose title is the `oldTitle` of the body, `POST /ideas/edit` answers
`success: true` and puts, at the position of the first such record, a record
whose fields are exactly `title` (the `newTitle` of the body), `description`,
`creator`, `category`, `fundingGoal` and `status`, each as `JSON.stringify`
writes the value the body gives: absent when the body lacks it, with `null` in
the place of every number outside the range of doubles, and the value itself
when it holds no such number. Every other idea, the length and the order of
the list and the other collections are unchanged. When no record read has that
title, the answer is `success: false` with "Idea not found" and the store is
unchanged. -/
theorem replace_by_key (fs : FsOutcome) (s : Store) (body : JVal) :
    (fs.readOk .ideas = true → fs.writeOk .ideas = true →
      (∃ i ∈ s.ideas, strictEq (i.field "title") (body.field "oldTitle") = true) →
      ∃ k old new, s.ideas[k]? = some old ∧
        strictEq (old.field "title") (body.field "oldTitle") = true ∧
        (∀ j < k, ∀ x, s.ideas[j]? = some x →
          strictEq (x.field "title") (body.field "oldTitle") = false) ∧
        postIdeasEdit fs s body = (Response.ok, { s with ideas := s.ideas.set k new }) ∧
        (s.ideas.set k new)[k]? = some new ∧
        (∀ j, j ≠ k → (s.ideas.set k new)[j]? = s.ideas[j]?) ∧
        (s.ideas.set k new).length = s.ideas.length ∧
        new.field "title" = (body.field "newTitle").map JVal.stored ∧
        new.field "description" = (body.field "description").map JVal.stored ∧
        new.field "creator" = (body.field "creator").map JVal.stored ∧
        new.field "category" = (body.field "category").map JVal.stored ∧
        new.field "fundingGoal" = (body.field "fundingGoal").map JVal.stored ∧
        new.field "status" = (body.field "status").map JVal.stored ∧
        ∀ name,
          name ∉ ["title", "description", "creator", "category", "fundingGoal", "status"] →
          new.field name = none) ∧
    (∀ v : JVal, v.finite = true → v.stored = v) ∧
    ((∀ i ∈ readJsonFile fs s .ideas,
        strictEq (i.field "title") (body.field "oldTitle") = false) →
      postIdeasEdit fs s body = (Response.fail "Idea not found", s)) := by
  refine ⟨?_, JVal.stored_of_finite, ?_⟩
  · intro hr hw ⟨i, hi, he⟩
    have hread : loaded fs s .ideas = s.ideas := loaded_of_readOk s hr
    cases hf : findIndex (hasTitle (body.field "oldTitle")) (loaded fs s .ideas) with
    | none =>
      rw [hread] at hf
      have := findIndex_eq_none.mp hf i hi
      simp [hasTitle, he] at this
    | some k =>
      have hk : k < s.ideas.length := by
        have := findIndex_lt_length hf
        rwa [hread] at this
      obtain ⟨old, hold, hp, hfirst⟩ := findIndex_eq_some hf
      rw [hread] at hold hfirst
      obtain ⟨f1, f2, f3, f4, f5, f6, f7⟩ := editedIdea_field body
      refine ⟨k, old, (editedIdea body).stringify, hold, hp, hfirst, ?_, ?_, ?_, ?_,
        ?_, ?_, ?_, ?_, ?_, ?_, ?_⟩
      · rw [postIdeasEdit_found hf]
        simp [hw, hread, Store.set]
      · simp [hk]
      · intro j hj
        exact List.getElem?_set_ne (Ne.symm hj)
      · simp
      · rw [stringify_field, f1]
      · rw [stringify_field, f2]
      · rw [stringify_field, f3]
      · rw [stringify_field, f4]
      · rw [stringify_field, f5]
      · rw [stringify_field, f6]
      · intro name hname
        rw [stringify_field, f7 name hname]
        rfl
  · intro hnone
    rw [readJsonFile_eq] at hnone
    apply postIdeasEdit_not_found
    apply findIndex_eq_none.mpr
    intro x hx
    exact hnone x.parse (List.mem_map_of_mem _ hx)

/-- Witness of the amended C10: renaming `"A"` to `"C"` in `storeWithExtra`
replaces the second idea and drops its field `likes`; renaming `"C"` in
`sampleStore` finds no such idea. -/
theorem replace_by_key_witness :
    (∃ k old new, storeWithExtra.ideas[k]? = some old ∧
        postIdeasEdit .allOk storeWithExtra editAtoC =
          (Response.ok, { storeWithExtra with ideas := storeWithExtra.ideas.set k new }) ∧
        new.field "title" = some (.str "C") ∧ new.field "likes" = none) ∧
      postIdeasEdit .allOk sampleStore renameCtoD = (Response.fail "Idea not found", sampleStore) :=
  ⟨by
    obtain ⟨k, old, new, h1, _, _, h4, _, _, _, h8, _, _, _, _, _, h14⟩ :=
      (replace_by_key .allOk storeWithExtra editAtoC).1 rfl rfl
        ⟨ideaAWithExtra, by simp [storeWithExtra], by decide⟩
    exact ⟨k, old, new, h1, h4, h8.trans rfl, h14 "likes" (by decide)⟩,
   (replace_by_key .allOk sampleStore renameCtoD).2.2 (by
    intro i hi
    simp only [readJsonFile, FsOutcome.allOk, if_true, sampleStore, Store.get, List.map_cons,
      List.map_nil, List.mem_cons, List.mem_singleton, List.not_mem_nil, or_false] at hi
    rcases hi with rfl | rfl <;> rfl)⟩

/-- C11, as stated, fails when a write fails after the file was opened.
Deleting idea `"A"` from `sampleStore` when the write of `funds` fails and
leaves the file cut is answered "Failed to delete idea", and `funds`, whose
write failed, is not as it was: it is read as empty. -/
theorem failed_write_may_cut_file :
    fundsWriteCut.writeOk .funds = false ∧
      (postIdeasDelete fundsWriteCut sampleStore deleteA).1 =
        Response.fail "Failed to delete idea" ∧
      sampleStore.funds = [fundA, fundB, fundA] ∧
      (postIdeasDelete fundsWriteCut sampleStore deleteA).2.funds = [] ∧
      (postIdeasDelete fundsWriteCut sampleStore deleteA).2.funds ≠ sampleStore.funds := by
  have h : (postIdeasDelete fundsWriteCut sampleStore deleteA).2.funds = [] := rfl
  refine ⟨rfl, rfl, rfl, h, ?_⟩
  rw [h]
  exact fun h2 => List.noConfusion h2

/-- C11, amended. When every read succeeds and `ideas` holds a record whose
title is the `title` of the body, then for every pattern of success and
failure of the five writes of `POST /ideas/delete`: the answer is
`success: true` exactly when the five writes succeed and otherwise
`success: false` with "Failed to delete idea"; each of the five collections
whose write succeeds holds its new content (`ideas` without the first record
with the title, the four others filtered), whatever the outcome of the writes
before it; each collection whose write fails is as it was when the write
failed before the file was opened, and is cut and read as empty when it failed
after. -/
theorem delete_without_rollback (fs : FsOutcome) (s : Store) (body : JVal)
    (hr : ∀ c, fs.readOk c = true)
    (hex : ∃ i ∈ s.ideas, strictEq (i.field "title") (body.field "title") = true) :
    ((postIdeasDelete fs s body).1.success = true ↔ ∀ c ∈ written, fs.writeOk c = true) ∧
    ((∀ c ∈ written, fs.writeOk c = true) → (postIdeasDelete fs s body).1 = Response.ok) ∧
    ((∃ c ∈ written, fs.writeOk c = false) →
      (postIdeasDelete fs s body).1 = Response.fail "Failed to delete idea") ∧
    (∃ k i, s.ideas[k]? = some i ∧
      strictEq (i.field "title") (body.field "title") = true ∧
      (∀ j < k, ∀ x, s.ideas[j]? = some x →
        strictEq (x.field "title") (body.field "title") = false) ∧
      (postIdeasDelete fs s body).2.ideas =
        if fs.writeOk .ideas then s.ideas.eraseIdx k
        else if fs.cutOnFail .ideas then [] else s.ideas) ∧
    ((postIdeasDelete fs s body).2.funds =
      if fs.writeOk .funds then
        s.funds.filter (fun f => !strictEq (f.field "ideaTitle") (body.field "title"))
      else if fs.cutOnFail .funds then [] else s.funds) ∧
    ((postIdeasDelete fs s body).2.votes =
      if fs.writeOk .votes then
        s.votes.filter (fun v => !strictEq (v.field "ideaTitle") (body.field "title"))
      else if fs.cutOnFail .votes then [] else s.votes) ∧
    ((postIdeasDelete fs s body).2.comments =
      if fs.writeOk .comments then
        s.comments.filter (fun c => !strictEq (c.field "ideaTitle") (body.field "title"))
      else if fs.cutOnFail .comments then [] else s.comments) ∧
    ((postIdeasDelete fs s body).2.chat_messages =
      if fs.writeOk .chat_messages then
        s.chat_messages.filter
          (fun m => !strictEq (m.field "ideaTitle") (body.field "title"))
      else if fs.cutOnFail .chat_messages then [] else s.chat_messages) ∧
    (postIdeasDelete fs s body).2.users = s.users ∧
    (postIdeasDelete fs s body).2.activity_log = s.activity_log := by
  have hread : ∀ c, loaded fs s c = s.get c := fun c => loaded_of_readOk s (hr c)
  cases hf : findIndex (hasTitle (body.field "title")) (loaded fs s .ideas) with
  | none =>
    obtain ⟨i, hi, he⟩ := hex
    rw [hread] at hf
    have := findIndex_eq_none.mp hf i hi
    simp [hasTitle, he] at this
  | some k =>
    have hk : k < s.ideas.length := by
      have := findIndex_lt_length hf
      rwa [hread] at this
    obtain ⟨i, hi, hpi, hfirst⟩ := findIndex_eq_some hf
    rw [hread] at hi hfirst
    have hsp : splice s.ideas (.fin (k : ℚ)) 1 = s.ideas.eraseIdx k :=
      splice_natCast_one s.ideas hk
    rw [postIdeasDelete_found hf]
    simp only [hread, Store.get, refersTo, hsp, afterWrite]
    refine ⟨?_, ?_, ?_, ⟨k, i, hi, hpi, hfirst, rfl⟩, by first | rfl | trivial,
      by first | rfl | trivial, by first | rfl | trivial, by first | rfl | trivial,
      by first | rfl | trivial, by first | rfl | trivial⟩
    · cases h1 : fs.writeOk .ideas <;> cases h2 : fs.writeOk .funds <;>
        cases h3 : fs.writeOk .votes <;> cases h4 : fs.writeOk .comments <;>
        cases h5 : fs.writeOk .chat_messages <;>
        simp [written, h1, h2, h3, h4, h5, Response.ok, Response.fail]
    · intro hall
      simp only [written, List.mem_cons, List.mem_singleton, List.not_mem_nil, or_false,
        forall_eq_or_imp, forall_eq] at hall
      simp [hall]
    · rintro ⟨c, hc, hfail⟩
      simp only [written, List.mem_cons, List.mem_singleton, List.not_mem_nil, or_false] at hc
      rcases hc with rfl | rfl | rfl | rfl | rfl <;> simp [hfail]

/-- Witness of the amended C11: deleting idea `"A"` from `sampleStore` when
only the write of `funds` fails. The answer is a failure; `funds` is as it was
when the file was not touched and empty when it was cut; the other collections
are trimmed. -/
theorem delete_without_rollback_witness :
    (postIdeasDelete fundsWriteFails sampleStore deleteA).1 =
        Response.fail "Failed to delete idea" ∧
      (postIdeasDelete fundsWriteFails sampleStore deleteA).2.funds = [fundA, fundB, fundA] ∧
      (postIdeasDelete fundsWriteCut sampleStore deleteA).2.funds = [] ∧
      (postIdeasDelete fundsWriteFails sampleStore deleteA).2.votes = [] ∧
      (postIdeasDelete fundsWriteFails sampleStore deleteA).2.comments = [commentB] ∧
      (postIdeasDelete fundsWriteFails sampleStore deleteA).2.chat_messages = [] :=
  have h := delete_without_rollback fundsWriteFails sampleStore deleteA (fun _ => rfl)
    ⟨ideaA, List.mem_cons_self _ _, by decide⟩
  have h' := delete_without_rollback fundsWriteCut sampleStore deleteA (fun _ => rfl)
    ⟨ideaA, List.mem_cons_self _ _, by decide⟩
  ⟨h.2.2.1 ⟨.funds, by decide, rfl⟩, h.2.2.2.2.1.trans rfl, h'.2.2.2.2.1.trans rfl,
    h.2.2.2.2.2.1.trans rfl, h.2.2.2.2.2.2.1.trans rfl, h.2.2.2.2.2.2.2.1.trans rfl⟩

/-- C12. Snapshot: for every store and every outcome of the reads,
`GET /analytics` sends an object with exactly the seven keys `users`, `ideas`,
`funds`, `votes`, `comments`, `chatMessages`, `activityLog`; the value under
each key is what `list()` of the corresponding collection returns (`GET` of
`chat_messages` for `chatMessages`, of `activity_log` for `activityLog`), which
is the stored collection when it is read successfully; and the store is as it
was. -/
theorem analytics_snapshot (fs : FsOutcome) (s : Store) :
    (getAnalytics fs s).1.map Prod.fst =
        ["users", "ideas", "funds", "votes", "comments", "chatMessages", "activityLog"] ∧
      (getAnalytics fs s).1.lookup "users" = some (list .users fs s) ∧
      (getAnalytics fs s).1.lookup "ideas" = some (list .ideas fs s) ∧
      (getAnalytics fs s).1.lookup "funds" = some (list .funds fs s) ∧
      (getAnalytics fs s).1.lookup "votes" = some (list .votes fs s) ∧
      (getAnalytics fs s).1.lookup "comments" = some (list .comments fs s) ∧
      (getAnalytics fs s).1.lookup "chatMessages" = some (list .chat_messages fs s) ∧
      (getAnalytics fs s).1.lookup "activityLog" = some (list .activity_log fs s) ∧
      (∀ c, fs.readOk c = true → list c fs s = (s.get c).map Json.parse) ∧
      (getAnalytics fs s).2 = s := by
  refine ⟨rfl, rfl, rfl, rfl, rfl, rfl, rfl, rfl, ?_, rfl⟩
  intro c hc
  rw [list_eq_readJsonFile, readJsonFile_of_readOk s hc]

/-- Witness of C12: the snapshot of `sampleStore` when every read succeeds. -/
theorem analytics_snapshot_witness :
    (getAnalytics .allOk sampleStore).1.lookup "funds" =
        some [fundA.parse, fundB.parse, fundA.parse] ∧
      (getAnalytics .allOk sampleStore).1.lookup "chatMessages" = some [chatA.parse] ∧
      list .funds .allOk sampleStore = (sampleStore.get .funds).map Json.parse ∧
      (getAnalytics .allOk sampleStore).2 = sampleStore :=
  have h := analytics_snapshot .allOk sampleStore
  ⟨h.2.2.2.1.trans rfl, h.2.2.2.2.2.2.1.trans rfl, h.2.2.2.2.2.2.2.2.1 .funds rfl,
    h.2.2.2.2.2.2.2.2.2⟩

/-- C13. Unbounded collections: for every store, whatever the length of
`funds` and `activity_log` and whatever records they hold, `POST /fund` and
`POST /activity_log` answer `success: true` and store the list read followed by
the new record whenever the write succeeds; when the write fails they answer
"Failed to save fund" and "Failed to save activity log", and the file is as it
was, or cut when the write failed after opening it. No other answer exists, so
none reports a duplicate or a limit. -/
theorem unbounded_append (fs : FsOutcome) (s : Store) (r : JVal) :
    (fs.writeOk .funds = true →
      postFund fs s r =
        (Response.ok, s.set .funds ((readJsonFile fs s .funds ++ [r]).map JVal.stringify))) ∧
    (fs.writeOk .funds = false →
      postFund fs s r =
        (Response.fail "Failed to save fund",
          if fs.cutOnFail .funds then s.set .funds [] else s)) ∧
    (fs.writeOk .activity_log = true →
      postActivityLog fs s r =
        (Response.ok,
          s.set .activity_log ((readJsonFile fs s .activity_log ++ [r]).map JVal.stringify))) ∧
    (fs.writeOk .activity_log = false →
      postActivityLog fs s r =
        (Response.fail "Failed to save activity log",
          if fs.cutOnFail .activity_log then s.set .activity_log [] else s)) ∧
    (∀ c, fs.readOk c = true →
      (readJsonFile fs s c ++ [r]).map JVal.stringify = s.get c ++ [r.stringify]) := by
  refine ⟨?_, ?_, ?_, ?_, ?_⟩
  · intro hw
    simp [postFund, writeJsonFile, hw]
  · intro hw
    simp [postFund, writeJsonFile, hw]
  · intro hw
    simp [postActivityLog, writeJsonFile, hw]
  · intro hw
    simp [postActivityLog, writeJsonFile, hw]
  · intro c hc
    simp [readJsonFile_of_readOk s hc, map_stringify_comp_parse]

/-- Witness of C13: on `largeStore`, whose `funds` and `activity_log` hold
6000 copies of one record, one more copy is appended to each. -/
theorem unbounded_append_witness :
    postFund .allOk largeStore fundA.parse =
        (Response.ok, largeStore.set .funds (largeStore.funds ++ [fundA])) ∧
      postActivityLog .allOk largeStore fundA.parse =
        (Response.ok, largeStore.set .activity_log (largeStore.activity_log ++ [fundA])) ∧
      postFund fundsWriteFails largeStore fundA.parse =
        (Response.fail "Failed to save fund", largeStore) :=
  have h := unbounded_append .allOk largeStore fundA.parse
  ⟨(h.1 rfl).trans (by rw [h.2.2.2.2 .funds rfl]; rfl),
   (h.2.2.1 rfl).trans (by rw [h.2.2.2.2 .activity_log rfl]; rfl),
   (unbounded_append fundsWriteFails largeStore fundA.parse).2.1 rfl⟩

/-- C14. The cascade filter is idempotent: for every list of records and every
title, the filter of `POST /ideas/delete` (keep the records whose `ideaTitle`
is not `===` to the title) returns a list without record of that `ideaTitle`
unchanged; hence filtering twice gives the same list as filtering once. -/
theorem cascade_filter_idempotent (title : Option JVal) (xs : List JVal) :
    ((∀ x ∈ xs, strictEq (x.field "ideaTitle") title = false) →
      xs.filter (fun f => !strictEq (f.field "ideaTitle") title) = xs) ∧
    (∀ x ∈ xs.filter (fun f => !strictEq (f.field "ideaTitle") title),
      strictEq (x.field "ideaTitle") title = false) ∧
    (xs.filter (fun f => !strictEq (f.field "ideaTitle") title)).filter
        (fun f => !strictEq (f.field "ideaTitle") title) =
      xs.filter (fun f => !strictEq (f.field "ideaTitle") title) := by
  have hno : ∀ ys : List JVal, (∀ x ∈ ys, strictEq (x.field "ideaTitle") title = false) →
      ys.filter (fun f => !strictEq (f.field "ideaTitle") title) = ys := by
    intro ys h
    apply List.filter_eq_self.mpr
    intro x hx
    simp [h x hx]
  have hfiltered : ∀ x ∈ xs.filter (fun f => !strictEq (f.field "ideaTitle") title),
      strictEq (x.field "ideaTitle") title = false := by
    intro x hx
    simpa using (List.mem_filter.mp hx).2
  exact ⟨hno xs, hfiltered, hno _ hfiltered⟩

/-- Witness of C14: no pledge of `[fundB, fundB]`, as parsed, is on idea
`"A"`, and the filter for `"A"` returns the list. -/
theorem cascade_filter_idempotent_witness :
    [fundB.parse, fundB.parse].filter
        (fun f => !strictEq (f.field "ideaTitle") (some (.str "A"))) =
      [fundB.parse, fundB.parse] :=
  (cascade_filter_idempotent (some (.str "A")) [fundB.parse, fundB.parse]).1 (by
    intro x hx
    simp only [List.mem_cons, List.mem_singleton, List.not_mem_nil, or_false] at hx
    rcases hx with rfl | rfl <;> rfl)

/-- C15, as stated, fails when the write of `funds` fails after the file was
opened. In `sampleStore`, `ideas` holds exactly one idea `"A"` and `funds`
holds pledges on `"A"`; the delete of `"A"` with the write of `ideas`
succeeding and the write of `funds` failing and leaving the file cut is
answered with a failure and every later delete with "Idea not found", but no
pledge on `"A"` is left: `funds` is read as empty. -/
theorem fund_lost_when_failed_write_cuts_file :
    sampleStore.ideas.countP
        (fun i => strictEq (i.field "title") (deleteA.field "title")) = 1 ∧
      (∃ f ∈ sampleStore.funds,
        strictEq (f.field "ideaTitle") (deleteA.field "title") = true) ∧
      fundsWriteCut.writeOk .ideas = true ∧ fundsWriteCut.writeOk .funds = false ∧
      (postIdeasDelete fundsWriteCut sampleStore deleteA).1 =
        Response.fail "Failed to delete idea" ∧
      postIdeasDelete .allOk (postIdeasDelete fundsWriteCut sampleStore deleteA).2 deleteA =
        (Response.fail "Idea not found",
          (postIdeasDelete fundsWriteCut sampleStore deleteA).2) ∧
      ¬ ∃ f ∈ (postIdeasDelete fundsWriteCut sampleStore deleteA).2.funds,
        strictEq (f.field "ideaTitle") (deleteA.field "title") = true := by
  refine ⟨by decide, ⟨fundA, List.mem_cons_self _ _, by decide⟩, rfl, rfl, rfl, rfl, ?_⟩
  have h : (postIdeasDelete fundsWriteCut sampleStore deleteA).2.funds = [] := rfl
  rw [h]
  simp

/-- C15, amended. When `ideas` holds exactly one record with the `title` of
the body, `funds` holds a record with that `ideaTitle`, and
`POST /ideas/delete` runs with `ideas` read, the write of `ideas` succeeding
and the write of `funds` failing, then the answer is `success: false` with
"Failed to delete idea"; every later `POST /ideas/delete` with the same body,
whatever the outcome of its reads and writes, answers "Idea not found" and
changes nothing, also when repeated. When the failed write left the file of
`funds` untouched, `funds` is as it was and its record with that `ideaTitle`
stays; when it left the file cut, `funds` is read as empty. -/
theorem retry_does_not_finish_cascade (fs1 : FsOutcome) (s : Store) (body : JVal)
    (hone : s.ideas.countP
      (fun i => strictEq (i.field "title") (body.field "title")) = 1)
    (hfund : ∃ f ∈ s.funds, strictEq (f.field "ideaTitle") (body.field "title") = true)
    (hr : fs1.readOk .ideas = true)
    (hwi : fs1.writeOk .ideas = true) (hwf : fs1.writeOk .funds = false) :
    (postIdeasDelete fs1 s body).1 = Response.fail "Failed to delete idea" ∧
    (∀ fs2 : FsOutcome,
      postIdeasDelete fs2 (postIdeasDelete fs1 s body).2 body =
        (Response.fail "Idea not found", (postIdeasDelete fs1 s body).2)) ∧
    (∀ fss : List FsOutcome,
      fss.foldl (fun st fs => (postIdeasDelete fs st body).2) (postIdeasDelete fs1 s body).2 =
        (postIdeasDelete fs1 s body).2) ∧
    (fs1.cutOnFail .funds = false →
      (postIdeasDelete fs1 s body).2.funds = s.funds ∧
      ∀ fss : List FsOutcome, ∃ f ∈
        (fss.foldl (fun st fs => (postIdeasDelete fs st body).2)
          (postIdeasDelete fs1 s body).2).funds,
        strictEq (f.field "ideaTitle") (body.field "title") = true) ∧
    (fs1.cutOnFail .funds = true → (postIdeasDelete fs1 s body).2.funds = []) := by
  have hread : loaded fs1 s .ideas = s.ideas := loaded_of_readOk s hr
  have hcount : s.ideas.countP (hasTitle (body.field "title")) = 1 := hone
  cases hf : findIndex (hasTitle (body.field "title")) (loaded fs1 s .ideas) with
  | none =>
    rw [hread] at hf
    have hzero : s.ideas.countP (hasTitle (body.field "title")) = 0 := by
      apply List.countP_eq_zero.mpr
      intro x hx
      simp [findIndex_eq_none.mp hf x hx]
    omega
  | some k =>
    have hk : k < s.ideas.length := by
      have := findIndex_lt_length hf
      rwa [hread] at this
    obtain ⟨i, hi, hpi, -⟩ := findIndex_eq_some hf
    rw [hread] at hi
    have hzero : (s.ideas.eraseIdx k).countP (hasTitle (body.field "title")) = 0 := by
      have := countP_eraseIdx_add_one hi hpi
      omega
    have hfirst := postIdeasDelete_found hf
    have hideas : (postIdeasDelete fs1 s body).2.ideas = s.ideas.eraseIdx k := by
      rw [hfirst]
      simp only [afterWrite, hwi, if_true, hread]
      exact splice_natCast_one s.ideas hk
    have hfunds : fs1.cutOnFail .funds = false →
        (postIdeasDelete fs1 s body).2.funds = s.funds := by
      intro hcut
      rw [hfirst]
      simp [afterWrite, hwf, hcut, Store.get]
    have habsent : ∀ x ∈ (postIdeasDelete fs1 s body).2.ideas,
        hasTitle (body.field "title") x = false := by
      intro x hx
      rw [hideas] at hx
      simpa using List.countP_eq_zero.mp hzero x hx
    refine ⟨?_, fun fs2 => postIdeasDelete_of_absent fs2 habsent,
      fun fss => foldl_postIdeasDelete_of_absent fss habsent, fun hcut => ⟨hfunds hcut, ?_⟩,
      fun hcut => ?_⟩
    · rw [hfirst]
      simp [hwi, hwf]
    · intro fss
      rw [foldl_postIdeasDelete_of_absent fss habsent, hfunds hcut]
      exact hfund
    · rw [hfirst]
      simp [afterWrite, hwf, hcut]

/-- Witness of the amended C15: deleting idea `"A"` from `sampleStore` when the
write of `funds` fails without touching the file, then deleting it again with
every write succeeding. -/
theorem retry_does_not_finish_cascade_witness :
    (postIdeasDelete fundsWriteFails sampleStore deleteA).1 =
        Response.fail "Failed to delete idea" ∧
      postIdeasDelete .allOk (postIdeasDelete fundsWriteFails sampleStore deleteA).2 deleteA =
        (Response.fail "Idea not found",
          (postIdeasDelete fundsWriteFails sampleStore deleteA).2) ∧
      (postIdeasDelete fundsWriteFails sampleStore deleteA).2.funds = [fundA, fundB, fundA] :=
  have h := retry_does_not_finish_cascade fundsWriteFails sampleStore deleteA (by decide)
    ⟨fundA, List.mem_cons_self _ _, by decide⟩ rfl rfl rfl
  ⟨h.1, h.2.1 .allOk, (h.2.2.2.1 rfl).1.trans rfl⟩

/-- C16, as stated, fails when a write fails after the file was opened.
`POST /fund` on `sampleStore` with the write of `funds` failing and leaving
the file cut answers `success: false` with "Failed to save fund", and `funds`
is not as it was: it is read as empty. -/
theorem failing_append_may_cut_file :
    (postFund fundsWriteCut sampleStore fundB.parse).1 =
        Response.fail "Failed to save fund" ∧
      sampleStore.funds = [fundA, fundB, fundA] ∧
      (postFund fundsWriteCut sampleStore fundB.parse).2.funds = [] ∧
      (postFund fundsWriteCut sampleStore fundB.parse).2 ≠ sampleStore := by
  have h : (postFund fundsWriteCut sampleStore fundB.parse).2.funds = [] := rfl
  refine ⟨rfl, rfl, h, ?_⟩
  intro h2
  rw [h2] at h
  exact List.noConfusion h

/-- C16, amended. For every store, request body and outcome of the file system
calls: an append to a collection, `POST /ideas/edit` and
`POST /comments/delete` leave the six other collections as they were (so an
edit that renames an idea leaves every fund, vote, comment and chat message
untouched, whatever its `ideaTitle`); `POST /ideas/delete` never changes
`users` or `activity_log`. An operation that answers `success: false` leaves
the whole store as it was, except a `POST /ideas/delete` that found the idea
and had at least one of its five writes succeed, and except that a write
failing after the file was opened leaves the file of the operation cut, read
as empty. -/
theorem frame (conv : JVal → JSNum) (fs : FsOutcome) (s : Store) (body : JVal) :
    (∀ c d : Coll, d ≠ c → (append c fs s body).2.get d = s.get d) ∧
    (∀ d : Coll, d ≠ .ideas → (postIdeasEdit fs s body).2.get d = s.get d) ∧
    (∀ d : Coll, d ≠ .comments → (postCommentsDelete conv fs s body).2.get d = s.get d) ∧
    (postIdeasDelete fs s body).2.users = s.users ∧
    (postIdeasDelete fs s body).2.activity_log = s.activity_log ∧
    (∀ c : Coll, (append c fs s body).1.success = false →
      (append c fs s body).2 = s ∨
      (fs.writeOk c = false ∧ fs.cutOnFail c = true ∧ (append c fs s body).2 = s.set c [])) ∧
    ((postIdeasEdit fs s body).1.success = false →
      (postIdeasEdit fs s body).2 = s ∨
      (fs.writeOk .ideas = false ∧ fs.cutOnFail .ideas = true ∧
        (postIdeasEdit fs s body).2 = s.set .ideas [])) ∧
    ((postCommentsDelete conv fs s body).1.success = false →
      (postCommentsDelete conv fs s body).2 = s ∨
      (fs.writeOk .comments = false ∧ fs.cutOnFail .comments = true ∧
        (postCommentsDelete conv fs s body).2 = s.set .comments [])) ∧
    ((postIdeasDelete fs s body).1 = Response.fail "Idea not found" →
      (postIdeasDelete fs s body).2 = s) ∧
    ((postIdeasDelete fs s body).1.success = false → (∀ c ∈ written, fs.writeOk c = false) →
      ∀ c : Coll, (postIdeasDelete fs s body).2.get c = s.get c ∨
        (c ∈ written ∧ fs.cutOnFail c = true ∧ (postIdeasDelete fs s body).2.get c = [])) := by
  refine ⟨fun c d h => append_get_of_ne c fs s body h,
    fun d h => postIdeasEdit_get_of_ne fs s body h,
    fun d h => postCommentsDelete_get_of_ne conv fs s body h,
    postIdeasDelete_users fs s body, postIdeasDelete_activity_log fs s body, ?_, ?_, ?_, ?_, ?_⟩
  · intro c hfail
    rcases append_cases c fs s body with ⟨_, h0⟩ | ⟨h1, _⟩
    · exact h0
    · rw [h1] at hfail
      simp [Response.ok] at hfail
  · intro hfail
    cases hf : findIndex (hasTitle (body.field "oldTitle")) (loaded fs s .ideas) with
    | none => rw [postIdeasEdit_not_found hf]; exact Or.inl rfl
    | some k =>
      rw [postIdeasEdit_found hf] at hfail ⊢
      cases hw : fs.writeOk .ideas with
      | true => simp [hw, Response.ok] at hfail
      | false =>
        cases hcut : fs.cutOnFail .ideas with
        | true => simp
        | false => simp
  · intro hfail
    rcases postCommentsDelete_cases conv fs s body with ⟨_, h0⟩ | h1
    · exact h0
    · rw [h1] at hfail
      simp [Response.ok] at hfail
  · intro hresp
    cases hf : findIndex (hasTitle (body.field "title")) (loaded fs s .ideas) with
    | none => rw [postIdeasDelete_not_found hf]
    | some k =>
      rw [postIdeasDelete_found hf] at hresp
      simp only at hresp
      split at hresp
      · exact absurd hresp (by decide)
      · exact absurd hresp (by decide)
  · intro _ hnone c
    simp only [written, List.mem_cons, List.mem_singleton, List.not_mem_nil, or_false,
      forall_eq_or_imp, forall_eq] at hnone
    cases hf : findIndex (hasTitle (body.field "title")) (loaded fs s .ideas) with
    | none => rw [postIdeasDelete_not_found hf]; exact Or.inl rfl
    | some k =>
      rw [postIdeasDelete_found hf]
      cases c <;> simp only [Store.get, afterWrite, hnone] <;>
        first
        | exact Or.inl rfl
        | (cases hcut : fs.cutOnFail _ <;> simp [written])

/-- Witness of the amended C16 on `sampleStore`: a new user, the renaming of
idea `"A"` to `"B"` and the delete of a comment leave `funds`, with its pledges
on `"A"`, as it was; a delete without `title` in the body, a `POST /fund`
whose write fails without touching the file and a delete of idea `"A"` whose
five writes fail without touching the files leave the store, or `funds`, as it
was. -/
theorem frame_witness :
    (append .users .allOk sampleStore userBob.parse).2.get .funds = sampleStore.get .funds ∧
      (postIdeasEdit .allOk sampleStore renameAtoB).2.get .funds = [fundA, fundB, fundA] ∧
      (postCommentsDelete convNaN .allOk sampleStore deleteAt1).2.get .funds =
        sampleStore.get .funds ∧
      (postIdeasDelete .allOk sampleStore deleteNoIndex).2 = sampleStore ∧
      (append .funds fundsWriteFails sampleStore fundB.parse).2 = sampleStore ∧
      (postIdeasDelete allWritesFail sampleStore deleteA).2.get .funds =
        sampleStore.get .funds :=
  ⟨(frame convNaN .allOk sampleStore userBob.parse).1 .users .funds (by decide),
   ((frame convNaN .allOk sampleStore renameAtoB).2.1 .funds (by decide)).trans rfl,
   (frame convNaN .allOk sampleStore deleteAt1).2.2.1 .funds (by decide),
   (frame convNaN .allOk sampleStore deleteNoIndex).2.2.2.2.2.2.2.2.1 rfl,
   ((frame convNaN fundsWriteFails sampleStore fundB.parse).2.2.2.2.2.1 .funds rfl).resolve_right
     (fun h => absurd h.2.1 (by decide)),
   ((frame convNaN allWritesFail sampleStore deleteA).2.2.2.2.2.2.2.2.2 rfl (fun _ _ => rfl)
     .funds).resolve_right (fun h => absurd h.2.1 (by decide))⟩

end IdeaBoard
